import Mathlib

/-!
A verification development for the street-view archiver
(`street_view_archiver_public.py`).

The program's core is embedded shallowly:

* Python strings are modelled as `List Char`; paragraph style names are kept
  as Lean `String` constants (`"HEADING_1"`, `"HEADING_2"`, `"NORMAL_TEXT"`).
* Python floats are modelled as exact decimal numbers (`PyFloat`): a sign,
  a mantissa and a power-of-ten exponent.  The program parses floats only
  from decimal literals captured by its regexes and performs no arithmetic
  on them other than `"{:.6f}"` formatting, so the exact-decimal model agrees
  with IEEE semantics on every operation the program performs.
* The two regular expressions of `extract_coordinates` are embedded as
  deterministic matchers (`searchPat1`, `searchPat2`) with `re.search`'s
  leftmost-match semantics; for these patterns greedy matching with
  backtracking coincides with maximal munch, since every `\d+` is followed
  by a non-digit token.  The `\d` class is modelled over the ASCII digits.
* The Google Docs document body is modelled as a list of paragraphs
  (`Para`), each carrying its concatenated text-run content (always ending
  in a newline in real documents) and its named paragraph style.  A
  paragraph's `startIndex` is recomputed as 1 plus the lengths of the
  preceding paragraphs, which is what the Docs API guarantees.  A
  `batchUpdate` is a list of `DocRequest`s applied sequentially
  (`applyReqs`): `insertText` splices text and re-splits paragraphs at
  newlines (new paragraphs inherit the style of the paragraph the text was
  inserted into), `updateParagraphStyle` restyles every paragraph whose
  span overlaps the given range, and `updateTextStyle` only changes
  run-level link styling, leaving paragraph texts and styles unchanged.
* Fallible code returns `Option`/`Except`; `archive_location` returns
  `none` for the SkippedDuplicate outcome (the function returns before any
  request is built, so no mutation is issued) and `some reqs` for the
  batch of mutation requests it submits.
-/

namespace SVA

instance {ε α : Type} [DecidableEq ε] [DecidableEq α] : DecidableEq (Except ε α) := fun a b =>
  match a, b with
  | .ok x, .ok y => if h : x = y then .isTrue (by rw [h]) else .isFalse (by simp [h])
  | .error x, .error y => if h : x = y then .isTrue (by rw [h]) else .isFalse (by simp [h])
  | .ok _, .error _ => .isFalse (by simp)
  | .error _, .ok _ => .isFalse (by simp)

/-- Python `str.strip` whitespace class (the ASCII part). -/
def isPyWs (c : Char) : Bool :=
  c = ' ' ∨ c = '\t' ∨ c = '\n' ∨ c = '\r' ∨ c = '\x0b' ∨ c = '\x0c'

/-- Python `str.strip`: drop leading and trailing whitespace. -/
def pyStrip (cs : List Char) : List Char :=
  ((cs.dropWhile isPyWs).reverse.dropWhile isPyWs).reverse

/-- Substring test, Python's `in` on strings. -/
def isSubstr (n h : List Char) : Bool := decide (n <:+: h)

/-- A decimal digit character. -/
def digitChar : Nat → Char
  | 0 => '0' | 1 => '1' | 2 => '2' | 3 => '3' | 4 => '4'
  | 5 => '5' | 6 => '6' | 7 => '7' | 8 => '8' | _ => '9'

/-- Decimal digits of `n`, most significant first (fuel-driven so that it
reduces in the kernel). -/
def natStrAux : Nat → Nat → List Char
  | 0, _ => []
  | fuel + 1, n => if n < 10 then [digitChar n] else natStrAux fuel (n / 10) ++ [digitChar (n % 10)]

/-- Decimal representation of a natural number. -/
def natStr (n : Nat) : List Char := natStrAux (n + 1) n

/-- The value of a digit string (base ten). -/
def digitsVal (ds : List Char) : Nat := ds.foldl (fun a c => a * 10 + (c.toNat - 48)) 0

/-- Python floats, modelled as exact decimals: the value is
`(-1)^neg * mant / 10^exp`. -/
structure PyFloat where
  neg : Bool
  mant : Nat
  exp : Nat
deriving DecidableEq, Repr

/-- Round-half-even of `|x| * 10^6`, as an integer scaled by `10^6`:
the rounding Python's `"{:.6f}"` performs on the magnitude. -/
def scale6 (x : PyFloat) : Nat :=
  if x.exp ≤ 6 then x.mant * 10 ^ (6 - x.exp)
  else
    let d := 10 ^ (x.exp - 6)
    let q := x.mant / d
    let r := x.mant % d
    if 2 * r < d then q else if d < 2 * r then q + 1 else if q % 2 = 0 then q else q + 1

/-- Zero-padded six-digit representation of `n < 10^6`. -/
def pad6 (n : Nat) : List Char :=
  List.replicate (6 - (natStr n).length) '0' ++ natStr n

/-- Python `f"{x:.6f}"`. -/
def format6 (x : PyFloat) : List Char :=
  (if x.neg then ['-'] else []) ++
    natStr (scale6 x / 1000000) ++ '.' :: pad6 (scale6 x % 1000000)

/-- The program's coordinate search/insert string `f"{lat:.6f}, {lon:.6f}"`. -/
def formatCoord (lat lon : PyFloat) : List Char :=
  format6 lat ++ ',' :: ' ' :: format6 lon

/-- Maximal-munch match of `\d+\.\d+` at the head of the input, returning the
matched characters and the rest.  (For the program's patterns every `\d+` is
followed by a non-digit token, so backtracking can never produce a match that
maximal munch misses.) -/
def parseUnsigned (cs : List Char) : Option (List Char × List Char) :=
  if cs.takeWhile Char.isDigit = [] then none
  else
    match cs.dropWhile Char.isDigit with
    | c :: r2 =>
      if c = '.' then
        if r2.takeWhile Char.isDigit = [] then none
        else some (cs.takeWhile Char.isDigit ++ '.' :: r2.takeWhile Char.isDigit,
                   r2.dropWhile Char.isDigit)
      else none
    | [] => none

/-- Match of `-?\d+\.\d+` at the head of the input.  (If a `-` is present but
no number follows, the regex backtracks to the empty `-?` and then fails on
`\d+`, so the sign is consumed exactly when a number follows it.) -/
def parseSigned (cs : List Char) : Option (List Char × List Char) :=
  match cs with
  | c :: r =>
    if c = '-' then (parseUnsigned r).map fun g => ('-' :: g.1, g.2)
    else parseUnsigned (c :: r)
  | [] => parseUnsigned []

/-- Match of the pattern `@(-?\d+\.\d+),(-?\d+\.\d+)` anchored at the head of
the input, returning the two capture groups. -/
def matchPat1 (cs : List Char) : Option (List Char × List Char) :=
  match cs with
  | c :: r =>
    if c = '@' then
      match parseSigned r with
      | some (g1, r1) =>
        match r1 with
        | c1 :: r2 =>
          if c1 = ',' then
            match parseSigned r2 with
            | some (g2, _) => some (g1, g2)
            | none => none
          else none
        | [] => none
      | none => none
    else none
  | [] => none

/-- Match of the pattern `!3d(-?\d+\.\d+)!4d(-?\d+\.\d+)` anchored at the head
of the input. -/
def matchPat2 (cs : List Char) : Option (List Char × List Char) :=
  match cs with
  | c1 :: c2 :: c3 :: r =>
    if c1 = '!' ∧ c2 = '3' ∧ c3 = 'd' then
      match parseSigned r with
      | some (g1, r1) =>
        match r1 with
        | b1 :: b2 :: b3 :: r2 =>
          if b1 = '!' ∧ b2 = '4' ∧ b3 = 'd' then
            match parseSigned r2 with
            | some (g2, _) => some (g1, g2)
            | none => none
          else none
        | _ => none
      | none => none
    else none
  | _ => none

/-- `re.search` for the first pattern: try every start position left to
right, first structural match wins. -/
def searchPat1 : List Char → Option (List Char × List Char)
  | [] => matchPat1 []
  | c :: cs =>
    match matchPat1 (c :: cs) with
    | some g => some g
    | none => searchPat1 cs

/-- `re.search` for the second pattern. -/
def searchPat2 : List Char → Option (List Char × List Char)
  | [] => matchPat2 []
  | c :: cs =>
    match matchPat2 (c :: cs) with
    | some g => some g
    | none => searchPat2 cs

/-- The numeric part of Python `float()` on the decimal-literal fragment the
program can capture: digits with an optional fractional part (at least one
digit overall); anything else fails with `ValueError`. -/
def pyFloatAux (sgn : Bool) (rest : List Char) : Option PyFloat :=
  match rest.dropWhile Char.isDigit with
  | [] =>
    if rest.takeWhile Char.isDigit = [] then none
    else some ⟨sgn, digitsVal (rest.takeWhile Char.isDigit), 0⟩
  | c :: r2 =>
    if c = '.' then
      if r2.dropWhile Char.isDigit = [] then
        if rest.takeWhile Char.isDigit = [] ∧ r2.takeWhile Char.isDigit = [] then none
        else some ⟨sgn, digitsVal (rest.takeWhile Char.isDigit ++ r2.takeWhile Char.isDigit),
                   (r2.takeWhile Char.isDigit).length⟩
      else none
    else none

/-- Python `float()` on a captured group: optional sign, then the
decimal-literal body. -/
def pyFloat (cs : List Char) : Option PyFloat :=
  match cs with
  | c :: r =>
    if c = '-' then pyFloatAux true r
    else if c = '+' then pyFloatAux false r
    else pyFloatAux false (c :: r)
  | [] => pyFloatAux false []

/-- The float value of a captured group, with a junk default for strings
`float()` rejects. -/
def floatVal (cs : List Char) : PyFloat := (pyFloat cs).getD ⟨false, 0, 0⟩

/-- Try one pattern the way the source's loop body does: a structural match
whose captures fail `float()` is treated as a non-match (`continue`). -/
def tryPattern (res : Option (List Char × List Char)) : Option (PyFloat × PyFloat) :=
  match res with
  | some (g1, g2) =>
    match pyFloat g1, pyFloat g2 with
    | some a, some b => some (a, b)
    | _, _ => none
  | none => none

/-- `StreetViewArchiver.extract_coordinates`: try the `@lat,lng` pattern,
then the `!3dlat!4dlng` pattern; raise `ValueError` when neither yields a
numeric pair. -/
def extract_coordinates (url : List Char) : Except String (PyFloat × PyFloat) :=
  match tryPattern (searchPat1 url) with
  | some p => .ok p
  | none =>
    match tryPattern (searchPat2 url) with
    | some p => .ok p
    | none => .error ("Could not extract valid coordinates from URL: " ++ String.mk url)

/-- One entry of a geocoding result's `address_components` list. -/
structure AddressComponent where
  long_name : String
  types : List String
deriving DecidableEq, Repr

/-- One entry of the geocoding response's `results` list. -/
structure GeoResult where
  address_components : List AddressComponent
deriving DecidableEq, Repr

/-- The decoded JSON body of a geocoding response. -/
structure GeoResponse where
  status : String
  results : List GeoResult
deriving DecidableEq, Repr

/-- The errors `get_location_info` can raise: `requestError` stands for the
exceptions of the HTTP layer (`requests.get` / `raise_for_status`), and
`valueError` for the `ValueError(msg)` raises in the function body. -/
inductive GeoError where
  | requestError (msg : String)
  | valueError (msg : String)
deriving DecidableEq, Repr

/-- The constructor (Python: exception class) of a `GeoError`. -/
def errKind : GeoError → Nat
  | .requestError _ => 0
  | .valueError _ => 1

/-- The loop body of `get_location_info`: overwrite the country slot whenever
a component's types contain `"country"` and the state slot whenever they
contain `"administrative_area_level_1"` (two independent `if`s). -/
def updSlots (acc : Option String × Option String) (comp : AddressComponent) :
    Option String × Option String :=
  (if "country" ∈ comp.types then some comp.long_name else acc.1,
   if "administrative_area_level_1" ∈ comp.types then some comp.long_name else acc.2)

/-- `StreetViewArchiver.get_location_info`, with the HTTP exchange abstracted
into its outcome: `fetch` is the transport-layer result (`.error` when
`requests.get`/`raise_for_status` raised, `.ok` the decoded JSON body). -/
def get_location_info (fetch : Except String GeoResponse) : Except GeoError (String × String) :=
  match fetch with
  | .error e => .error (.requestError e)
  | .ok data =>
    if data.status ≠ "OK" then .error (.valueError ("Geocoding API error: " ++ data.status))
    else
      match data.results with
      | [] => .error (.valueError "No results found for the given coordinates")
      | r :: _ =>
        match r.address_components.foldl updSlots (none, none) with
        | (some country, some state) =>
          if country = "" ∨ state = "" then
            .error (.valueError "Country or state information is missing")
          else .ok (country, state)
        | _ => .error (.valueError "Country or state information is missing")

/-- The long-form name of the last component whose types contain `t` (what
the overwriting loop actually keeps). -/
def lastComponentWith (t : String) (comps : List AddressComponent) : Option String :=
  (comps.filter fun comp => t ∈ comp.types).getLast? |>.map (·.long_name)

/-- A paragraph of the Google Docs body: its concatenated text-run content and
its named paragraph style. -/
structure Para where
  text : List Char
  style : String
deriving DecidableEq, Repr

/-- The mutation operations an archive call can batch. -/
inductive DocRequest where
  | insertText (index : Nat) (text : List Char)
  | updateParagraphStyle (startIndex endIndex : Nat) (style : String)
  | updateTextStyle (startIndex endIndex : Nat) (url : List Char)
deriving DecidableEq, Repr

/-- Total length (in characters) of a document body. -/
def docLen (d : List Para) : Nat := (d.map fun p => p.text.length).sum

/-- Split a character sequence into newline-terminated lines (a trailing
fragment without a newline becomes a final line). -/
def splitLines : List Char → List (List Char)
  | [] => []
  | c :: cs =>
    if c = '\n' then ['\n'] :: splitLines cs
    else
      match splitLines cs with
      | [] => [[c]]
      | l :: ls => (c :: l) :: ls

/-- Paragraphs obtained by splitting `cs` at newlines, all carrying style
`st` (inserted text inherits the style of the paragraph it lands in). -/
def splitParas (cs : List Char) (st : String) : List Para :=
  (splitLines cs).map fun l => ⟨l, st⟩

/-- Insert `t` at character offset `i` (0-based, body text only) and re-split
the affected paragraph. -/
def insertTextAt : List Para → Nat → List Char → List Para
  | [], _, t => splitParas t "NORMAL_TEXT"
  | p :: ps, i, t =>
    if i < p.text.length ∨ ps = [] then
      splitParas (p.text.take i ++ t ++ p.text.drop i) p.style ++ ps
    else p :: insertTextAt ps (i - p.text.length) t

/-- Restyle every paragraph whose span overlaps the 0-based range `[s, e)`;
`off` is the offset of the first paragraph. -/
def styleRange : List Para → Nat → Nat → Nat → String → List Para
  | [], _, _, _, _ => []
  | p :: ps, off, s, e, st =>
    (if s < off + p.text.length ∧ off < e then { p with style := st } else p) ::
      styleRange ps (off + p.text.length) s e st

/-- Apply one batch-update request.  Document character indices are 1-based
(index 0 is the section break before the body), hence the `- 1` shifts.
`updateTextStyle` only sets run-level link styling, which this paragraph
model does not track, so it leaves paragraphs unchanged. -/
def applyReq (d : List Para) : DocRequest → List Para
  | .insertText i t => insertTextAt d (i - 1) t
  | .updateParagraphStyle s e st => styleRange d 0 (s - 1) (e - 1) st
  | .updateTextStyle _ _ _ => d

/-- Apply a batch of requests in order, each interpreted against the document
state produced by the previous ones (Google Docs `batchUpdate` semantics). -/
def applyReqs (d : List Para) (rs : List DocRequest) : List Para := rs.foldl applyReq d

/-- `StreetViewArchiver.location_exists_in_doc`: scan every paragraph's
concatenated text for the formatted coordinate string or the raw url. -/
def location_exists_in_doc (d : List Para) (lat lon : PyFloat) (url : List Char) : Bool :=
  d.any fun p => isSubstr (formatCoord lat lon) p.text || isSubstr url p.text

/-- The header-discovery loop of `archive_location`: one forward pass; a
paragraph whose stripped text equals the country overwrites the country
anchor, otherwise (`elif`) one equal to the state overwrites the state
anchor; `idx` is the `startIndex` of the first paragraph.  The recursion
gives the later paragraphs precedence, matching the loop's last-write-wins
behavior. -/
def findHeaders : List Para → Nat → List Char → List Char → Option Nat × Option Nat
  | [], _, _, _ => (none, none)
  | p :: ps, idx, country, state =>
    let rest := findHeaders ps (idx + p.text.length) country state
    let t := pyStrip p.text
    ((match rest.1 with
      | some c => some c
      | none => if t = country then some idx else none),
     (match rest.2 with
      | some s => some s
      | none => if t ≠ country ∧ t = state then some idx else none))

/-- `StreetViewArchiver.archive_location`: `none` is the SkippedDuplicate
outcome (the function returns before building any request); `some reqs` is
the batch submitted to `batchUpdate`. -/
def archive_location (d : List Para) (url : List Char) (lat lon : PyFloat)
    (country state : List Char) : Option (List DocRequest) :=
  if location_exists_in_doc d lat lon url then none
  else
    let found := findHeaders d 1 country state
    let countryReqs : List DocRequest :=
      match found.1 with
      | none => [.insertText 1 (country ++ ['\n']),
                 .updateParagraphStyle 1 (country.length + 2) "HEADING_1"]
      | some _ => []
    let country_index := found.1.getD 1
    let stateData : List DocRequest × Nat :=
      match found.2 with
      | none =>
        let sii := country_index + country.length + 1
        ([.insertText sii (state ++ ['\n']),
          .updateParagraphStyle sii (sii + state.length + 1) "HEADING_2"], sii)
      | some si => ([], si)
    let coord_text := formatCoord lat lon ++ ['\n']
    let coord_index := stateData.2 + state.length + 1
    some (countryReqs ++ stateData.1 ++
      [.insertText coord_index coord_text,
       .updateTextStyle coord_index (coord_index + (pyStrip coord_text).length) url,
       .updateParagraphStyle coord_index (coord_index + coord_text.length) "NORMAL_TEXT"])

/-- Number of `NORMAL_TEXT` paragraphs containing the formatted coordinate
string of `(lat, lon)`. -/
def countNormalCoord (d : List Para) (lat lon : PyFloat) : Nat :=
  d.countP fun p => p.style == "NORMAL_TEXT" && isSubstr (formatCoord lat lon) p.text

/-- Number of paragraphs with style `st` whose stripped text is `label`. -/
def countHeading (d : List Para) (st : String) (label : List Char) : Nat :=
  d.countP fun p => p.style == st && pyStrip p.text == label

/-- `wfText cs` holds when `cs` is a well-formed paragraph text: nonempty,
ending in a newline, with no interior newline (the shape the Docs API
maintains for every paragraph). -/
def wfText (cs : List Char) : Bool :=
  cs ≠ [] ∧ cs.getLast? = some '\n' ∧ '\n' ∉ cs.dropLast

/-- Whether paragraphs `p` then `q` occur adjacently in the document. -/
def adjacentIn : List Para → Para → Para → Bool
  | a :: b :: rest, p, q => (a = p ∧ b = q) ∨ adjacentIn (b :: rest) p q
  | _, _, _ => false

/-- Whether the text contains a digit, a literal dot and a digit in
adjacent positions (a necessary feature for either coordinate pattern to
match). -/
def hasDigitDotDigit : List Char → Bool
  | a :: b :: c :: rest => (a.isDigit && b == '.' && c.isDigit) || hasDigitDotDigit (b :: c :: rest)
  | _ => false

/-- `|x| ≤ bound` for the exact-decimal float model. -/
def absLe (x : PyFloat) (bound : Nat) : Bool := x.mant ≤ bound * 10 ^ x.exp

/-! ### The resolver's component scan -/

lemma foldl_updSlots_fst (comps : List AddressComponent) (c0 s0 : Option String) :
    (comps.foldl updSlots (c0, s0)).1 =
      match (comps.filter fun comp => "country" ∈ comp.types).getLast? with
      | some comp => some comp.long_name
      | none => c0 := by
  induction comps generalizing c0 s0 with
  | nil => rfl
  | cons p comps ih =>
    rw [List.foldl_cons, ih]
    by_cases hp : "country" ∈ p.types
    · rw [List.filter_cons_of_pos (by simpa using hp)]
      rcases hfl : comps.filter (fun comp => decide ("country" ∈ comp.types)) with _ | ⟨q, l⟩
      · simp only [hfl] at *
        simp [updSlots, hp]
      · rw [hfl, List.getLast?_cons_cons]
        cases h2 : (q :: l).getLast? with
        | none => exact absurd (List.getLast?_eq_none_iff.mp h2) (by simp)
        | some comp => rfl
    · rw [List.filter_cons_of_neg (by simpa using hp)]
      simp [updSlots, hp]

lemma foldl_updSlots_snd (comps : List AddressComponent) (c0 s0 : Option String) :
    (comps.foldl updSlots (c0, s0)).2 =
      match (comps.filter fun comp => "administrative_area_level_1" ∈ comp.types).getLast? with
      | some comp => some comp.long_name
      | none => s0 := by
  induction comps generalizing c0 s0 with
  | nil => rfl
  | cons p comps ih =>
    rw [List.foldl_cons, ih]
    by_cases hp : "administrative_area_level_1" ∈ p.types
    · rw [List.filter_cons_of_pos (by simpa using hp)]
      rcases hfl : comps.filter
          (fun comp => decide ("administrative_area_level_1" ∈ comp.types)) with _ | ⟨q, l⟩
      · simp only [hfl] at *
        simp [updSlots, hp]
      · rw [hfl, List.getLast?_cons_cons]
        cases h2 : (q :: l).getLast? with
        | none => exact absurd (List.getLast?_eq_none_iff.mp h2) (by simp)
        | some comp => rfl
    · rw [List.filter_cons_of_neg (by simpa using hp)]
      simp [updSlots, hp]

/-- C4, counterexample.  The claim says the resolver selects the *first*
component whose type set includes `"country"`; on a first result whose
component list carries two country components ("A" first, "B" last) the code
returns the *last* one, "B". -/
theorem claim_C4_counterexample :
    (([⟨"A", ["country"]⟩, ⟨"S1", ["administrative_area_level_1"]⟩,
       ⟨"B", ["country"]⟩] : List AddressComponent).filter
        fun comp => "country" ∈ comp.types).head? = some ⟨"A", ["country"]⟩ ∧
    get_location_info (.ok ⟨"OK",
      [⟨[⟨"A", ["country"]⟩, ⟨"S1", ["administrative_area_level_1"]⟩,
         ⟨"B", ["country"]⟩]⟩]⟩) = .ok ("B", "S1") := by
  decide

/-- C4, amended.  For every geocoding response with a non-empty results list,
the resolver uses only the first top-level result, and within that result's
address-component list it selects the *last* component whose type set
includes `"country"` and the *last* component whose type set includes
`"administrative_area_level_1"` (the loop overwrites the slots on every
match), returning each selected component's long-form display name. -/
theorem claim_C4 (resp : GeoResponse) (r : GeoResult) (rest : List GeoResult) (c s : String)
    (hst : resp.status = "OK") (hres : resp.results = r :: rest)
    (hc : lastComponentWith "country" r.address_components = some c)
    (hs : lastComponentWith "administrative_area_level_1" r.address_components = some s)
    (hc' : c ≠ "") (hs' : s ≠ "") :
    get_location_info (.ok resp) = .ok (c, s) := by
  rw [lastComponentWith, Option.map_eq_some'] at hc hs
  obtain ⟨compc, hcomp, hcname⟩ := hc
  obtain ⟨comps', hcomp', hsname⟩ := hs
  have h1 := foldl_updSlots_fst r.address_components none none
  have h2 := foldl_updSlots_snd r.address_components none none
  rw [hcomp] at h1
  rw [hcomp'] at h2
  have hpair : r.address_components.foldl updSlots (none, none) = (some c, some s) := by
    rw [Prod.ext_iff]
    constructor
    · rw [h1]
      show some compc.long_name = some c
      rw [hcname]
    · rw [h2]
      show some comps'.long_name = some s
      rw [hsname]
  simp only [get_location_info, hst, hres, hpair]
  simp [hc', hs']

/-- C4, witness for the amended theorem. -/
theorem claim_C4_witness :
    get_location_info (.ok ⟨"OK",
      [⟨[⟨"A", ["country"]⟩, ⟨"S1", ["administrative_area_level_1"]⟩,
         ⟨"B", ["country"]⟩]⟩]⟩) = .ok ("B", "S1") :=
  claim_C4 _ _ _ _ _ rfl rfl (by decide) (by decide) (by decide) (by decide)

/-- C8.  If the first result lacks an `administrative_area_level_1`-typed
component, resolution fails with the missing-information `ValueError` even
when a country component is present, and symmetrically when the country
component is the missing one; no partial pair is returned. -/
theorem claim_C8 :
    (∀ (resp : GeoResponse) (r : GeoResult) (rest : List GeoResult),
      resp.status = "OK" → resp.results = r :: rest →
      (∀ comp ∈ r.address_components, "administrative_area_level_1" ∉ comp.types) →
      get_location_info (.ok resp) = .error (.valueError "Country or state information is missing")) ∧
    (∀ (resp : GeoResponse) (r : GeoResult) (rest : List GeoResult),
      resp.status = "OK" → resp.results = r :: rest →
      (∀ comp ∈ r.address_components, "country" ∉ comp.types) →
      get_location_info (.ok resp) = .error (.valueError "Country or state information is missing")) := by
  constructor
  · intro resp r rest hst hres hmiss
    have hfilter :
        (r.address_components.filter fun comp => "administrative_area_level_1" ∈ comp.types) = [] :=
      List.filter_eq_nil_iff.mpr (by simpa using hmiss)
    have h2 := foldl_updSlots_snd r.address_components none none
    rw [hfilter] at h2
    rcases hf : r.address_components.foldl updSlots (none, none) with ⟨cslot, sslot⟩
    rw [hf] at h2
    simp only at h2
    subst h2
    simp only [get_location_info, hst, hres, hf]
    cases cslot <;> simp
  · intro resp r rest hst hres hmiss
    have hfilter :
        (r.address_components.filter fun comp => "country" ∈ comp.types) = [] :=
      List.filter_eq_nil_iff.mpr (by simpa using hmiss)
    have h1 := foldl_updSlots_fst r.address_components none none
    rw [hfilter] at h1
    rcases hf : r.address_components.foldl updSlots (none, none) with ⟨cslot, sslot⟩
    rw [hf] at h1
    simp only at h1
    subst h1
    simp only [get_location_info, hst, hres, hf]
    cases sslot <;> simp


/-- C8, witness. -/
theorem claim_C8_witness :
    get_location_info (.ok ⟨"OK", [⟨[⟨"France", ["country", "political"]⟩]⟩]⟩)
      = .error (.valueError "Country or state information is missing") :=
  claim_C8.1 _ _ _ rfl rfl (by decide)

/-- C6, counterexample.  The claim says the resolver's failure modes are four
distinguishable error kinds; in the code the non-success-status, empty-results
and missing-component failures all raise the same exception class
(`ValueError`, differing only in message text), so a caller matching on the
error kind cannot discriminate them. -/
theorem claim_C6_counterexample :
    get_location_info (.ok ⟨"REQUEST_DENIED", []⟩)
        = .error (.valueError "Geocoding API error: REQUEST_DENIED") ∧
    get_location_info (.ok ⟨"OK", []⟩)
        = .error (.valueError "No results found for the given coordinates") ∧
    get_location_info (.ok ⟨"OK", [⟨[]⟩]⟩)
        = .error (.valueError "Country or state information is missing") ∧
    errKind (.valueError "Geocoding API error: REQUEST_DENIED")
        = errKind (.valueError "No results found for the given coordinates") ∧
    errKind (.valueError "No results found for the given coordinates")
        = errKind (.valueError "Country or state information is missing") := by
  decide

/-- C6, amended.  The resolver's failure modes are surfaced as distinct
*branches*: transport failures propagate as request-layer exceptions (a kind
distinct from `ValueError`), while non-success status, empty results and
missing components all raise `ValueError`, distinguishable only by their
pairwise-distinct message texts (the status code is embedded in the
geocoding-failure message). -/
theorem claim_C6 :
    (∀ msg, get_location_info (.error msg) = .error (.requestError msg)) ∧
    (∀ resp : GeoResponse, resp.status ≠ "OK" →
      get_location_info (.ok resp) = .error (.valueError ("Geocoding API error: " ++ resp.status))) ∧
    (∀ resp : GeoResponse, resp.status = "OK" → resp.results = [] →
      get_location_info (.ok resp) = .error (.valueError "No results found for the given coordinates")) ∧
    (∀ s, ("Geocoding API error: " ++ s) ≠ "No results found for the given coordinates") ∧
    (∀ s, ("Geocoding API error: " ++ s) ≠ "Country or state information is missing") ∧
    ("No results found for the given coordinates" ≠
      ("Country or state information is missing" : String)) ∧
    (∀ m s, errKind (.requestError m) ≠ errKind (.valueError s)) := by
  refine ⟨fun msg => rfl, ?_, ?_, ?_, ?_, by decide, fun m s => by simp [errKind]⟩
  · intro resp h
    simp only [get_location_info]
    rw [if_pos h]
  · intro resp hst hres
    simp [get_location_info, hst, hres]
  · intro s h
    have h2 := congrArg String.data h
    rw [String.data_append] at h2
    have h3 := congrArg (List.take 2) h2
    rw [List.take_append_of_le_length (by decide)] at h3
    exact absurd h3 (by decide)
  · intro s h
    have h2 := congrArg String.data h
    rw [String.data_append] at h2
    have h3 := congrArg (List.take 2) h2
    rw [List.take_append_of_le_length (by decide)] at h3
    exact absurd h3 (by decide)

/-- C6, witness for the amended theorem. -/
theorem claim_C6_witness :
    get_location_info (.error "connection refused") = .error (.requestError "connection refused") ∧
    get_location_info (.ok ⟨"REQUEST_DENIED", []⟩)
        = .error (.valueError "Geocoding API error: REQUEST_DENIED") ∧
    get_location_info (.ok ⟨"OK", []⟩)
        = .error (.valueError "No results found for the given coordinates") ∧
    ("Geocoding API error: " ++ "REQUEST_DENIED") ≠ "No results found for the given coordinates" ∧
    errKind (.requestError "connection refused") ≠ errKind (.valueError "x") :=
  ⟨claim_C6.1 "connection refused",
   claim_C6.2.1 ⟨"REQUEST_DENIED", []⟩ (by decide),
   claim_C6.2.2.1 ⟨"OK", []⟩ rfl rfl,
   claim_C6.2.2.2.1 "REQUEST_DENIED",
   claim_C6.2.2.2.2.2.2 "connection refused" "x"⟩

/-! ### The coordinate extractor -/

lemma takeWhile_all_append {p : Char → Bool} (xs ys : List Char)
    (h : ∀ c ∈ xs, p c = true) (h2 : ∀ c, ys.head? = some c → p c = false) :
    (xs ++ ys).takeWhile p = xs ∧ (xs ++ ys).dropWhile p = ys := by
  induction xs with
  | nil =>
    simp only [List.nil_append]
    cases ys with
    | nil => exact ⟨rfl, rfl⟩
    | cons y ys =>
      have hy := h2 y rfl
      rw [List.takeWhile_cons, List.dropWhile_cons, hy]
      exact ⟨rfl, rfl⟩
  | cons x xs ih =>
    have hx := h x (List.mem_cons_self _ _)
    obtain ⟨t, d⟩ := ih fun c hc => h c (List.mem_cons_of_mem _ hc)
    rw [List.cons_append, List.takeWhile_cons, List.dropWhile_cons, hx]
    exact ⟨by simp [t], by simp [d]⟩

lemma dropWhile_head_false {p : Char → Bool} :
    ∀ (l : List Char) c, (l.dropWhile p).head? = some c → p c = false := by
  intro l
  induction l with
  | nil => intro c h; simp at h
  | cons a l ih =>
    intro c h
    rw [List.dropWhile_cons] at h
    by_cases ha : p a = true
    · rw [ha] at h
      exact ih c (by simpa using h)
    · rw [Bool.not_eq_true] at ha
      rw [ha] at h
      simp only [Bool.false_eq_true, if_false, List.head?_cons, Option.some.injEq] at h
      rw [← h]
      exact ha

lemma parseUnsigned_sound (cs g r : List Char) (h : parseUnsigned cs = some (g, r)) :
    ∃ d1 d2, g = d1 ++ '.' :: d2 ∧ cs = g ++ r ∧ d1 ≠ [] ∧ d2 ≠ [] ∧
      (∀ c ∈ d1, c.isDigit = true) ∧ (∀ c ∈ d2, c.isDigit = true) ∧
      (∀ c, r.head? = some c → c.isDigit = false) := by
  unfold parseUnsigned at h
  split at h
  · exact absurd h (by simp)
  · rename_i h1
    split at h
    · rename_i c1 r2 hr1
      split at h
      · rename_i hc1
        split at h
        · exact absurd h (by simp)
        · rename_i h2
          simp only [Option.some.injEq, Prod.mk.injEq] at h
          obtain ⟨hg, hr⟩ := h
          subst hc1
          refine ⟨cs.takeWhile Char.isDigit, r2.takeWhile Char.isDigit, hg.symm, ?_, h1, h2,
            fun c hc => List.mem_takeWhile_imp hc, fun c hc => List.mem_takeWhile_imp hc,
            fun c hc => dropWhile_head_false r2 c (by rw [hr]; exact hc)⟩
          rw [← hg, ← hr, List.append_assoc, List.cons_append,
            List.takeWhile_append_dropWhile, ← hr1, List.takeWhile_append_dropWhile]
      · exact absurd h (by simp)
    · exact absurd h (by simp)

lemma parseUnsigned_append (d1 d2 r : List Char) (h1 : d1 ≠ []) (h2 : d2 ≠ [])
    (hd1 : ∀ c ∈ d1, c.isDigit = true) (hd2 : ∀ c ∈ d2, c.isDigit = true)
    (hr : ∀ c, r.head? = some c → c.isDigit = false) :
    parseUnsigned (d1 ++ '.' :: (d2 ++ r)) = some (d1 ++ '.' :: d2, r) := by
  obtain ⟨t1, dr1⟩ := takeWhile_all_append d1 ('.' :: (d2 ++ r)) hd1
    (fun c hc => by
      simp only [List.head?_cons, Option.some.injEq] at hc
      rw [← hc]; rfl)
  obtain ⟨t2, dr2⟩ := takeWhile_all_append d2 r hd2 hr
  unfold parseUnsigned
  rw [t1, dr1]
  simp [h1, h2, t2, dr2]

lemma takeWhile_eq_self_of_all {p : Char → Bool} (l : List Char) (h : ∀ c ∈ l, p c = true) :
    l.takeWhile p = l ∧ l.dropWhile p = [] := by
  have := takeWhile_all_append l [] h (by intro c hc; simp at hc)
  simpa using this

lemma pyFloatAux_some (sgn : Bool) (d1 d2 : List Char) (h1 : d1 ≠ []) (h2 : d2 ≠ [])
    (hd1 : ∀ c ∈ d1, c.isDigit = true) (hd2 : ∀ c ∈ d2, c.isDigit = true) :
    (pyFloatAux sgn (d1 ++ '.' :: d2)).isSome = true := by
  obtain ⟨t1, dr1⟩ := takeWhile_all_append d1 ('.' :: d2) hd1
    (fun c hc => by
      simp only [List.head?_cons, Option.some.injEq] at hc
      rw [← hc]; rfl)
  obtain ⟨t2, dr2⟩ := takeWhile_eq_self_of_all d2 hd2
  unfold pyFloatAux
  rw [dr1]
  simp [t1, t2, dr2, h1, h2]

lemma pyFloat_cons_digit (a : Char) (rest : List Char) (ha : a.isDigit = true) :
    pyFloat (a :: rest) = pyFloatAux false (a :: rest) := by
  have h1 : a ≠ '-' := by intro e; rw [e] at ha; exact absurd ha (by decide)
  have h2 : a ≠ '+' := by intro e; rw [e] at ha; exact absurd ha (by decide)
  unfold pyFloat
  simp [h1, h2]

lemma pyFloat_of_parseSigned (cs g r : List Char) (h : parseSigned cs = some (g, r)) :
    (pyFloat g).isSome = true := by
  unfold parseSigned at h
  split at h
  · rename_i c r0
    split at h
    · rename_i hc
      rw [Option.map_eq_some'] at h
      obtain ⟨⟨g0, r1⟩, hg0, hpr⟩ := h
      obtain ⟨d1, d2, hshape, -, hn1, hn2, hd1, hd2, -⟩ := parseUnsigned_sound _ _ _ hg0
      simp only [Prod.mk.injEq] at hpr
      rw [← hpr.1, hshape]
      show (pyFloat ('-' :: (d1 ++ '.' :: d2))).isSome = true
      unfold pyFloat
      simp only [if_pos rfl]
      exact pyFloatAux_some true d1 d2 hn1 hn2 hd1 hd2
    · obtain ⟨d1, d2, hshape, -, hn1, hn2, hd1, hd2, -⟩ := parseUnsigned_sound _ _ _ h
      rcases hd1nil : d1 with _ | ⟨a, d1t⟩
      · exact absurd (hd1nil ▸ hn1) (by simp)
      · have ha : a.isDigit = true := hd1 a (by rw [hd1nil]; exact List.mem_cons_self _ _)
        rw [hshape, hd1nil, List.cons_append, pyFloat_cons_digit a _ ha, ← List.cons_append,
          ← hd1nil]
        exact pyFloatAux_some false d1 d2 hn1 hn2 hd1 hd2
  · exact absurd h (by simp [parseUnsigned])

lemma parseSigned_self_append (n r : List Char) (h : parseSigned n = some (n, []))
    (hr : ∀ c, r.head? = some c → c.isDigit = false) :
    parseSigned (n ++ r) = some (n, r) := by
  unfold parseSigned at h
  split at h
  · rename_i c n0
    split at h
    · rename_i hc
      subst hc
      rw [Option.map_eq_some'] at h
      obtain ⟨⟨g0, r1⟩, hg0, hpr⟩ := h
      simp only [Prod.mk.injEq, List.cons.injEq] at hpr
      obtain ⟨⟨-, hg⟩, hr1⟩ := hpr
      subst hg
      subst hr1
      obtain ⟨d1, d2, hshape, -, hn1, hn2, hd1, hd2, -⟩ := parseUnsigned_sound _ _ _ hg0
      have hpu : parseUnsigned (g0 ++ r) = some (g0, r) := by
        rw [hshape, List.append_assoc, List.cons_append]
        exact parseUnsigned_append d1 d2 r hn1 hn2 hd1 hd2 hr
      show parseSigned ('-' :: (g0 ++ r)) = some ('-' :: g0, r)
      unfold parseSigned
      simp [hpu]
    · rename_i hc
      have hpu : parseUnsigned ((c :: n0) ++ r) = some (c :: n0, r) := by
        obtain ⟨d1, d2, hshape, -, hn1, hn2, hd1, hd2, -⟩ := parseUnsigned_sound _ _ _ h
        rw [hshape, List.append_assoc, List.cons_append]
        exact parseUnsigned_append d1 d2 r hn1 hn2 hd1 hd2 hr
      show parseSigned (c :: (n0 ++ r)) = some (c :: n0, r)
      unfold parseSigned
      simp only [if_neg hc]
      rw [← List.cons_append, hpu]
  · exact absurd h (by simp [parseUnsigned])
lemma hDDD_cons (c : Char) (l : List Char) (h : hasDigitDotDigit l = true) :
    hasDigitDotDigit (c :: l) = true := by
  rcases l with _ | ⟨a, _ | ⟨b, rest⟩⟩
  · simp [hasDigitDotDigit] at h
  · simp [hasDigitDotDigit] at h
  · unfold hasDigitDotDigit
    rw [h, Bool.or_true]

lemma hDDD_append (s l : List Char) (h : hasDigitDotDigit l = true) :
    hasDigitDotDigit (s ++ l) = true := by
  induction s with
  | nil => exact h
  | cons c s ih => exact hDDD_cons _ _ ih

lemma hDDD_start (a b : Char) (rest : List Char) (ha : a.isDigit = true) (hb : b.isDigit = true) :
    hasDigitDotDigit (a :: '.' :: b :: rest) = true := by
  unfold hasDigitDotDigit
  rw [ha, hb]
  simp

lemma hDDD_of_parseUnsigned (cs g r : List Char) (h : parseUnsigned cs = some (g, r)) :
    hasDigitDotDigit cs = true := by
  obtain ⟨d1, d2, hshape, hsplit, hn1, hn2, hd1, hd2, -⟩ := parseUnsigned_sound _ _ _ h
  rcases List.eq_nil_or_concat d1 with rfl | ⟨L, a, rfl⟩
  · exact absurd rfl hn1
  · rcases d2 with _ | ⟨b, d2t⟩
    · exact absurd rfl hn2
    · have ha : a.isDigit = true := hd1 a (by simp)
      have hb : b.isDigit = true := hd2 b (by simp)
      rw [hsplit, hshape]
      have : L.concat a ++ '.' :: b :: d2t ++ r = L ++ (a :: '.' :: b :: (d2t ++ r)) := by
        simp [List.concat_eq_append]
      rw [this]
      exact hDDD_append L _ (hDDD_start a b _ ha hb)

lemma hDDD_of_parseSigned (cs g r : List Char) (h : parseSigned cs = some (g, r)) :
    hasDigitDotDigit cs = true := by
  unfold parseSigned at h
  split at h
  · rename_i c r0
    split at h
    · rw [Option.map_eq_some'] at h
      obtain ⟨⟨g0, r1⟩, hg0, -⟩ := h
      exact hDDD_cons c r0 (hDDD_of_parseUnsigned r0 _ _ hg0)
    · exact hDDD_of_parseUnsigned _ _ _ h
  · exact absurd h (by simp [parseUnsigned])

lemma hDDD_of_matchPat1 (cs : List Char) (g : List Char × List Char)
    (h : matchPat1 cs = some g) : hasDigitDotDigit cs = true := by
  unfold matchPat1 at h
  split at h
  · rename_i c r0
    split at h
    · split at h
      · rename_i g1 r1 hps
        exact hDDD_cons c r0 (hDDD_of_parseSigned r0 _ _ hps)
      · exact absurd h (by simp)
    · exact absurd h (by simp)
  · exact absurd h (by simp)

lemma hDDD_of_matchPat2 (cs : List Char) (g : List Char × List Char)
    (h : matchPat2 cs = some g) : hasDigitDotDigit cs = true := by
  unfold matchPat2 at h
  split at h
  · rename_i c1 c2 c3 r0
    split at h
    · split at h
      · rename_i g1 r1 hps
        exact hDDD_cons c1 _ (hDDD_cons c2 _ (hDDD_cons c3 _ (hDDD_of_parseSigned r0 _ _ hps)))
      · exact absurd h (by simp)
    · exact absurd h (by simp)
  · exact absurd h (by simp)

lemma hDDD_of_searchPat1 (cs : List Char) (g : List Char × List Char)
    (h : searchPat1 cs = some g) : hasDigitDotDigit cs = true := by
  induction cs with
  | nil => exact absurd h (by simp [searchPat1, matchPat1])
  | cons c cs ih =>
    rw [searchPat1] at h
    rcases hm : matchPat1 (c :: cs) with _ | g2
    · rw [hm] at h
      exact hDDD_cons c cs (ih h)
    · exact hDDD_of_matchPat1 _ _ hm

lemma hDDD_of_searchPat2 (cs : List Char) (g : List Char × List Char)
    (h : searchPat2 cs = some g) : hasDigitDotDigit cs = true := by
  induction cs with
  | nil => exact absurd h (by simp [searchPat2, matchPat2])
  | cons c cs ih =>
    rw [searchPat2] at h
    rcases hm : matchPat2 (c :: cs) with _ | g2
    · rw [hm] at h
      exact hDDD_cons c cs (ih h)
    · exact hDDD_of_matchPat2 _ _ hm

lemma matchPat1_none_of_ne (c : Char) (cs : List Char) (hc : c ≠ '@') :
    matchPat1 (c :: cs) = none := by
  unfold matchPat1
  simp [hc]

lemma searchPat1_append_no_at (a rest : List Char) (ha : '@' ∉ a) :
    searchPat1 (a ++ rest) = searchPat1 rest := by
  induction a with
  | nil => rfl
  | cons c a ih =>
    have hc : c ≠ '@' := fun e => ha (e ▸ List.mem_cons_self _ _)
    rw [List.cons_append, searchPat1, matchPat1_none_of_ne c _ hc]
    exact ih fun m => ha (List.mem_cons_of_mem _ m)

lemma head_take1 {p : Char → Bool} (b : List Char) (h : ∀ c ∈ b.take 1, p c = false) :
    ∀ c, b.head? = some c → p c = false := by
  intro c hc
  cases b with
  | nil => simp at hc
  | cons x b =>
    simp only [List.head?_cons, Option.some.injEq] at hc
    rw [← hc]
    exact h x (by simp)

lemma matchPat1_parts (n1 n2 rest : List Char)
    (h1 : parseSigned n1 = some (n1, [])) (h2 : parseSigned n2 = some (n2, []))
    (hb : ∀ c, rest.head? = some c → c.isDigit = false) :
    matchPat1 ('@' :: (n1 ++ ',' :: (n2 ++ rest))) = some (n1, n2) := by
  have e1 : parseSigned (n1 ++ ',' :: (n2 ++ rest)) = some (n1, ',' :: (n2 ++ rest)) :=
    parseSigned_self_append _ _ h1 (by
      intro c hc
      simp only [List.head?_cons, Option.some.injEq] at hc
      rw [← hc]; rfl)
  have e2 : parseSigned (n2 ++ rest) = some (n2, rest) := parseSigned_self_append _ _ h2 hb
  unfold matchPat1
  simp [e1, e2]

lemma matchPat1_floats (cs : List Char) (g1 g2 : List Char)
    (h : matchPat1 cs = some (g1, g2)) :
    (pyFloat g1).isSome = true ∧ (pyFloat g2).isSome = true := by
  unfold matchPat1 at h
  split at h
  · rename_i c r0
    split at h
    · split at h
      · rename_i g1' r1 hps1
        split at h
        · rename_i c1 r2 hr1
          split at h
          · split at h
            · rename_i g2' r3 hps2
              simp only [Option.some.injEq, Prod.mk.injEq] at h
              obtain ⟨hg1, hg2⟩ := h
              subst hg1
              subst hg2
              exact ⟨pyFloat_of_parseSigned _ _ _ hps1, pyFloat_of_parseSigned _ _ _ hps2⟩
            · exact absurd h (by simp)
          · exact absurd h (by simp)
        · exact absurd h (by simp)
      · exact absurd h (by simp)
    · exact absurd h (by simp)
  · exact absurd h (by simp)

lemma matchPat2_floats (cs : List Char) (g1 g2 : List Char)
    (h : matchPat2 cs = some (g1, g2)) :
    (pyFloat g1).isSome = true ∧ (pyFloat g2).isSome = true := by
  unfold matchPat2 at h
  split at h
  · rename_i c1 c2 c3 r0
    split at h
    · split at h
      · rename_i g1' r1 hps1
        split at h
        · rename_i b1 b2 b3 r2
          split at h
          · split at h
            · rename_i g2' r3 hps2
              simp only [Option.some.injEq, Prod.mk.injEq] at h
              obtain ⟨hg1, hg2⟩ := h
              subst hg1
              subst hg2
              exact ⟨pyFloat_of_parseSigned _ _ _ hps1, pyFloat_of_parseSigned _ _ _ hps2⟩
            · exact absurd h (by simp)
          · exact absurd h (by simp)
        · exact absurd h (by simp)
      · exact absurd h (by simp)
    · exact absurd h (by simp)
  · exact absurd h (by simp)

lemma searchPat1_floats (cs : List Char) (g1 g2 : List Char)
    (h : searchPat1 cs = some (g1, g2)) :
    (pyFloat g1).isSome = true ∧ (pyFloat g2).isSome = true := by
  induction cs with
  | nil => exact absurd h (by simp [searchPat1, matchPat1])
  | cons c cs ih =>
    rw [searchPat1] at h
    rcases hm : matchPat1 (c :: cs) with _ | g
    · rw [hm] at h
      exact ih h
    · rw [hm] at h
      simp only [Option.some.injEq] at h
      subst h
      exact matchPat1_floats _ _ _ hm

lemma searchPat2_floats (cs : List Char) (g1 g2 : List Char)
    (h : searchPat2 cs = some (g1, g2)) :
    (pyFloat g1).isSome = true ∧ (pyFloat g2).isSome = true := by
  induction cs with
  | nil => exact absurd h (by simp [searchPat2, matchPat2])
  | cons c cs ih =>
    rw [searchPat2] at h
    rcases hm : matchPat2 (c :: cs) with _ | g
    · rw [hm] at h
      exact ih h
    · rw [hm] at h
      simp only [Option.some.injEq] at h
      subst h
      exact matchPat2_floats _ _ _ hm

lemma extract_of_searchPat1 (cs : List Char) (g1 g2 : List Char)
    (h : searchPat1 cs = some (g1, g2)) :
    extract_coordinates cs = .ok (floatVal g1, floatVal g2) := by
  obtain ⟨f1, f2⟩ := searchPat1_floats _ _ _ h
  obtain ⟨x1, hx1⟩ := Option.isSome_iff_exists.mp f1
  obtain ⟨x2, hx2⟩ := Option.isSome_iff_exists.mp f2
  unfold extract_coordinates tryPattern
  rw [h]
  simp [floatVal, hx1, hx2]

lemma extract_of_searchPat2 (cs : List Char) (g1 g2 : List Char)
    (h0 : searchPat1 cs = none) (h : searchPat2 cs = some (g1, g2)) :
    extract_coordinates cs = .ok (floatVal g1, floatVal g2) := by
  obtain ⟨f1, f2⟩ := searchPat2_floats _ _ _ h
  obtain ⟨x1, hx1⟩ := Option.isSome_iff_exists.mp f1
  obtain ⟨x2, hx2⟩ := Option.isSome_iff_exists.mp f2
  unfold extract_coordinates tryPattern
  rw [h0, h]
  simp [floatVal, hx1, hx2]

lemma extract_at_parts (a n1 n2 b : List Char)
    (h1 : parseSigned n1 = some (n1, []))
    (h2 : parseSigned n2 = some (n2, []))
    (ha : '@' ∉ a)
    (hb : ∀ c, b.head? = some c → c.isDigit = false) :
    extract_coordinates (a ++ '@' :: (n1 ++ ',' :: (n2 ++ b)))
      = .ok (floatVal n1, floatVal n2) := by
  have hs : searchPat1 (a ++ '@' :: (n1 ++ ',' :: (n2 ++ b))) = some (n1, n2) := by
    rw [searchPat1_append_no_at a _ ha, searchPat1, matchPat1_parts n1 n2 b h1 h2 hb]
  exact extract_of_searchPat1 _ _ _ hs

/-- C3.  A URL containing the `@<lat>,<lon>` form (with signed decimals `n1`,
`n2` at its first `@`, delimited so the regex captures exactly them) makes
`extract_coordinates` return exactly that pair; the tail `b` may contain a
`!3d/!4d` form, which is ignored because the patterns are tried in priority
order and the first match wins. -/
theorem claim_C3 (a n1 n2 b : List Char)
    (h1 : parseSigned n1 = some (n1, []))
    (h2 : parseSigned n2 = some (n2, []))
    (ha : '@' ∉ a)
    (hb : ∀ c ∈ b.take 1, c.isDigit = false) :
    extract_coordinates (a ++ '@' :: (n1 ++ ',' :: (n2 ++ b)))
      = .ok (floatVal n1, floatVal n2) :=
  extract_at_parts a n1 n2 b h1 h2 ha (head_take1 b hb)

/-- C3, witness: the URL also contains a `!3d/!4d` pair, and the `@` pair
wins. -/
theorem claim_C3_witness :
    extract_coordinates ("https://www.google.com/maps/".data ++ '@' ::
        ("37.774900".data ++ ',' :: ("-122.419400".data ++ "!3d1.500000!4d2.500000".data)))
      = .ok (floatVal "37.774900".data, floatVal "-122.419400".data) :=
  claim_C3 _ _ _ _ (by decide) (by decide) (by decide) (by decide)

/-- C7, counterexample.  The claim says `extract_coordinates` never returns an
out-of-range pair; the code performs no range check, and on
`"@999.500000,0.500000"` it returns a latitude of magnitude 999.5 > 90. -/
theorem claim_C7_counterexample :
    extract_coordinates "@999.500000,0.500000".data
      = .ok (⟨false, 999500000, 6⟩, ⟨false, 500000, 6⟩) ∧
    absLe ⟨false, 999500000, 6⟩ 90 = false := by
  decide

/-- C7, amended.  `extract_coordinates` performs no range validation: whenever
the `@` pattern matches it returns the captured pair even when `|lat| > 90`;
extraction fails only when no pattern yields a numeric pair. -/
theorem claim_C7 (a n1 n2 b : List Char)
    (h1 : parseSigned n1 = some (n1, []))
    (h2 : parseSigned n2 = some (n2, []))
    (ha : '@' ∉ a)
    (hb : ∀ c ∈ b.take 1, c.isDigit = false)
    (hout : absLe (floatVal n1) 90 = false) :
    extract_coordinates (a ++ '@' :: (n1 ++ ',' :: (n2 ++ b)))
      = .ok (floatVal n1, floatVal n2) :=
  extract_at_parts a n1 n2 b h1 h2 ha (head_take1 b hb)

/-- C7, witness for the amended theorem. -/
theorem claim_C7_witness :
    extract_coordinates (([] : List Char) ++ '@' ::
        ("999.500000".data ++ ',' :: ("0.500000".data ++ ([] : List Char))))
      = .ok (floatVal "999.500000".data, floatVal "0.500000".data) :=
  claim_C7 _ _ _ _ (by decide) (by decide) (by decide) (by decide) (by decide)

/-- C9.  Both patterns require one or more digits on each side of a literal
decimal point, so any URL without a digit-dot-digit run anywhere — in
particular one whose coordinates appear only in integer form, such as
`@37,-122` or `!3d37!4d-122` — fails with the extraction `ValueError`. -/
theorem claim_C9 (url : List Char) (h : hasDigitDotDigit url = false) :
    extract_coordinates url
      = .error ("Could not extract valid coordinates from URL: " ++ String.mk url) := by
  have s1 : searchPat1 url = none := by
    cases hs : searchPat1 url with
    | none => rfl
    | some g => exact absurd (hDDD_of_searchPat1 url g hs) (by rw [h]; simp)
  have s2 : searchPat2 url = none := by
    cases hs : searchPat2 url with
    | none => rfl
    | some g => exact absurd (hDDD_of_searchPat2 url g hs) (by rw [h]; simp)
  unfold extract_coordinates tryPattern
  rw [s1, s2]

/-- C9, witness: a URL with integer-form coordinates after the `@`. -/
theorem claim_C9_witness :
    extract_coordinates "https://www.google.com/maps/@37,-122".data
      = .error ("Could not extract valid coordinates from URL: "
          ++ String.mk "https://www.google.com/maps/@37,-122".data) :=
  claim_C9 _ (by decide)

/-- C10.  Whenever a pattern structurally matches, `float()` succeeds on both
captured groups (every capture has the form `-?\d+\.\d+`), so the
parse-failure `continue` branch is unreachable: a structural match of the
first-matching pattern implies extraction returns its two numbers. -/
theorem claim_C10 :
    (∀ (cs g1 g2 : List Char), searchPat1 cs = some (g1, g2) →
      (pyFloat g1).isSome = true ∧ (pyFloat g2).isSome = true ∧
        extract_coordinates cs = .ok (floatVal g1, floatVal g2)) ∧
    (∀ (cs g1 g2 : List Char), searchPat1 cs = none → searchPat2 cs = some (g1, g2) →
      (pyFloat g1).isSome = true ∧ (pyFloat g2).isSome = true ∧
        extract_coordinates cs = .ok (floatVal g1, floatVal g2)) := by
  constructor
  · intro cs g1 g2 h
    obtain ⟨f1, f2⟩ := searchPat1_floats _ _ _ h
    exact ⟨f1, f2, extract_of_searchPat1 _ _ _ h⟩
  · intro cs g1 g2 h0 h
    obtain ⟨f1, f2⟩ := searchPat2_floats _ _ _ h
    exact ⟨f1, f2, extract_of_searchPat2 _ _ _ h0 h⟩

/-- C10, witness: one URL per pattern. -/
theorem claim_C10_witness :
    ((pyFloat "1.5".data).isSome = true ∧ (pyFloat "2.5".data).isSome = true ∧
      extract_coordinates "x@1.5,2.5".data = .ok (floatVal "1.5".data, floatVal "2.5".data)) ∧
    ((pyFloat "3.5".data).isSome = true ∧ (pyFloat "-4.5".data).isSome = true ∧
      extract_coordinates "!3d3.5!4d-4.5".data
        = .ok (floatVal "3.5".data, floatVal "-4.5".data)) :=
  ⟨claim_C10.1 _ _ _ (by decide), claim_C10.2 _ _ _ (by decide) (by decide)⟩

/-! ### Structure of the formatted coordinate string -/

lemma mem_of_head?_eq {l : List Char} {a : Char} (h : l.head? = some a) : a ∈ l := by
  cases l with
  | nil => simp at h
  | cons x t =>
    simp only [List.head?_cons, Option.some.injEq] at h
    rw [← h]
    exact List.mem_cons_self _ _

lemma mem_of_getLast?_eq {l : List Char} {a : Char} (h : l.getLast? = some a) : a ∈ l := by
  rw [← List.head?_reverse] at h
  exact List.mem_reverse.mp (mem_of_head?_eq h)

lemma digitChar_spec (k : Nat) :
    isPyWs (digitChar k) = false ∧ digitChar k ≠ '\n' ∧ (digitChar k).isDigit = true := by
  rcases k with _|_|_|_|_|_|_|_|_|k <;> simp [digitChar, isPyWs] <;> decide

lemma natStrAux_mem (fuel n : Nat) : ∀ c ∈ natStrAux fuel n, ∃ k, c = digitChar k := by
  induction fuel generalizing n with
  | zero => intro c hc; simp [natStrAux] at hc
  | succ fuel ih =>
    intro c hc
    unfold natStrAux at hc
    by_cases h : n < 10
    · rw [if_pos h] at hc
      simp only [List.mem_singleton] at hc
      exact ⟨n, hc⟩
    · rw [if_neg h] at hc
      rcases List.mem_append.mp hc with h1 | h2
      · exact ih (n / 10) c h1
      · simp only [List.mem_singleton] at h2
        exact ⟨n % 10, h2⟩

lemma natStr_mem (n : Nat) : ∀ c ∈ natStr n, ∃ k, c = digitChar k := natStrAux_mem _ _

lemma natStrAux_ne_nil (fuel n : Nat) (h : 0 < fuel) : natStrAux fuel n ≠ [] := by
  cases fuel with
  | zero => exact absurd h (by simp)
  | succ fuel =>
    unfold natStrAux
    by_cases hn : n < 10
    · rw [if_pos hn]; simp
    · rw [if_neg hn]; simp

lemma natStr_ne_nil (n : Nat) : natStr n ≠ [] := natStrAux_ne_nil _ _ (by simp)

lemma pad6_ne_nil (n : Nat) : pad6 n ≠ [] := by
  unfold pad6
  intro h
  rcases List.append_eq_nil.mp h with ⟨-, h2⟩
  exact natStr_ne_nil n h2

lemma pad6_mem (n : Nat) : ∀ c ∈ pad6 n, ∃ k, c = digitChar k := by
  intro c hc
  rcases List.mem_append.mp hc with h1 | h2
  · exact ⟨0, by simpa using (List.eq_of_mem_replicate h1)⟩
  · exact natStr_mem n c h2

lemma format6_mem (x : PyFloat) :
    ∀ c ∈ format6 x, c = '-' ∨ c = '.' ∨ ∃ k, c = digitChar k := by
  intro c hc
  unfold format6 at hc
  rcases List.mem_append.mp hc with h1 | h2
  · rcases List.mem_append.mp h1 with h3 | h4
    · by_cases hx : x.neg <;> simp [hx] at h3
      exact Or.inl h3
    · exact Or.inr (Or.inr (natStr_mem _ c h4))
  · rcases List.mem_cons.mp h2 with h5 | h6
    · exact Or.inr (Or.inl h5)
    · exact Or.inr (Or.inr (pad6_mem _ c h6))

lemma formatCoord_no_newline (lat lon : PyFloat) : '\n' ∉ formatCoord lat lon := by
  intro hmem
  unfold formatCoord at hmem
  have hbad : ('\n' : Char) = '-' ∨ ('\n' : Char) = '.' ∨ ∃ k, ('\n' : Char) = digitChar k := by
    rcases List.mem_append.mp hmem with h1 | h2
    · exact format6_mem lat _ h1
    · rcases List.mem_cons.mp h2 with h3 | h4
      · exact absurd h3 (by decide)
      · rcases List.mem_cons.mp h4 with h5 | h6
        · exact absurd h5 (by decide)
        · exact format6_mem lon _ h6
  rcases hbad with h | h | ⟨k, h⟩
  · exact absurd h (by decide)
  · exact absurd h (by decide)
  · exact absurd h.symm (digitChar_spec k).2.1

lemma format6_ne_nil (x : PyFloat) : format6 x ≠ [] := by
  unfold format6
  intro h
  rcases List.append_eq_nil.mp h with ⟨-, h2⟩
  exact absurd h2 (by simp)

lemma formatCoord_ne_nil (lat lon : PyFloat) : formatCoord lat lon ≠ [] := by
  unfold formatCoord
  intro h
  rcases List.append_eq_nil.mp h with ⟨h1, -⟩
  exact format6_ne_nil lat h1

lemma format6_head_not_ws (x : PyFloat) :
    ∀ c, (format6 x).head? = some c → isPyWs c = false := by
  intro c hc
  unfold format6 at hc
  by_cases hx : x.neg
  · rw [hx] at hc
    simp only [if_true, List.cons_append, List.head?_cons, Option.some.injEq] at hc
    rw [← hc]
    rfl
  · simp only [hx] at hc
    simp only [Bool.false_eq_true, if_false, List.nil_append] at hc
    rw [List.head?_append_of_ne_nil _ (natStr_ne_nil _)] at hc
    obtain ⟨k, hk⟩ := natStr_mem _ c (mem_of_head?_eq hc)
    rw [hk]
    exact (digitChar_spec k).1

lemma format6_last_not_ws (x : PyFloat) :
    ∀ c, (format6 x).getLast? = some c → isPyWs c = false := by
  intro c hc
  unfold format6 at hc
  rw [List.getLast?_append_of_ne_nil _ (by simp),
    show ('.' :: pad6 (scale6 x % 1000000)) = ['.'] ++ pad6 (scale6 x % 1000000) from rfl,
    List.getLast?_append_of_ne_nil _ (pad6_ne_nil _)] at hc
  obtain ⟨k, hk⟩ := pad6_mem _ c (mem_of_getLast?_eq hc)
  rw [hk]
  exact (digitChar_spec k).1

lemma formatCoord_head_not_ws (lat lon : PyFloat) :
    ∀ c, (formatCoord lat lon).head? = some c → isPyWs c = false := by
  intro c hc
  unfold formatCoord at hc
  rw [List.head?_append_of_ne_nil _ (format6_ne_nil lat)] at hc
  exact format6_head_not_ws lat c hc

lemma formatCoord_last_not_ws (lat lon : PyFloat) :
    ∀ c, (formatCoord lat lon).getLast? = some c → isPyWs c = false := by
  intro c hc
  unfold formatCoord at hc
  rw [show (',' :: ' ' :: format6 lon) = [',', ' '] ++ format6 lon from rfl,
    List.getLast?_append_of_ne_nil _ (by simp [format6_ne_nil lon]),
    List.getLast?_append_of_ne_nil _ (format6_ne_nil lon)] at hc
  exact format6_last_not_ws lon c hc

lemma pyStrip_append_newline (cs : List Char)
    (hh : ∀ c, cs.head? = some c → isPyWs c = false)
    (hl : ∀ c, cs.getLast? = some c → isPyWs c = false) :
    pyStrip (cs ++ ['\n']) = cs := by
  cases cs with
  | nil => rfl
  | cons a cs0 =>
    have ha : isPyWs a = false := hh a rfl
    have key : List.dropWhile isPyWs (a :: cs0).reverse = (a :: cs0).reverse := by
      rcases hrev : (a :: cs0).reverse with _ | ⟨b, R0⟩
      · exact absurd hrev (by simp)
      · have hb : isPyWs b = false := by
          apply hl
          rw [← List.head?_reverse, hrev]
          rfl
        rw [List.dropWhile_cons, hb]
        simp
    unfold pyStrip
    rw [List.cons_append, List.dropWhile_cons, ha]
    simp only [Bool.false_eq_true, if_false]
    rw [← List.cons_append, List.reverse_append]
    simp only [List.reverse_singleton, List.singleton_append]
    rw [List.dropWhile_cons]
    simp only [show isPyWs '\n' = true from rfl, if_true]
    rw [key, List.reverse_reverse]

lemma pyStrip_coord_line (lat lon : PyFloat) :
    pyStrip (formatCoord lat lon ++ ['\n']) = formatCoord lat lon :=
  pyStrip_append_newline _ (formatCoord_head_not_ws lat lon) (formatCoord_last_not_ws lat lon)

/-! ### The writer: request-level properties -/

/-- C5, counterexample.  The claim says the state anchor "already accounts for
any country/state text inserted earlier in the same batch".  On a document
whose state heading pre-exists but whose country heading does not, the code
inserts the country heading at index 1 and then uses the *stale* pre-insertion
state anchor: the coordinate line (for (1.5, 2.5)) is inserted at index 12,
which after the country insertion falls inside the new country heading —
the coordinate line ends up spliced into "United States", not immediately
after the state block (no paragraph pair "state heading, coordinate line" is
adjacent in the result). -/
theorem claim_C5_counterexample :
    archive_location [⟨"California\n".data, "HEADING_2"⟩, ⟨"x\n".data, "NORMAL_TEXT"⟩]
        "u3".data ⟨false, 15, 1⟩ ⟨false, 25, 1⟩ "United States".data "California".data
      = some [.insertText 1 "United States\n".data,
              .updateParagraphStyle 1 15 "HEADING_1",
              .insertText 12 "1.500000, 2.500000\n".data,
              .updateTextStyle 12 30 "u3".data,
              .updateParagraphStyle 12 31 "NORMAL_TEXT"] ∧
    applyReqs [⟨"California\n".data, "HEADING_2"⟩, ⟨"x\n".data, "NORMAL_TEXT"⟩]
        [.insertText 1 "United States\n".data,
         .updateParagraphStyle 1 15 "HEADING_1",
         .insertText 12 "1.500000, 2.500000\n".data,
         .updateTextStyle 12 30 "u3".data,
         .updateParagraphStyle 12 31 "NORMAL_TEXT"]
      = [⟨"United Stat1.500000, 2.500000\n".data, "NORMAL_TEXT"⟩,
         ⟨"es\n".data, "HEADING_1"⟩,
         ⟨"California\n".data, "HEADING_2"⟩,
         ⟨"x\n".data, "NORMAL_TEXT"⟩] ∧
    adjacentIn [⟨"United Stat1.500000, 2.500000\n".data, "NORMAL_TEXT"⟩,
         ⟨"es\n".data, "HEADING_1"⟩,
         ⟨"California\n".data, "HEADING_2"⟩,
         ⟨"x\n".data, "NORMAL_TEXT"⟩]
        ⟨"California\n".data, "HEADING_2"⟩
        ⟨"1.500000, 2.500000\n".data, "NORMAL_TEXT"⟩ = false := by
  decide

/-- C5, amended.  For every non-duplicate archive call the batch ends with the
three coordinate requests: the line `"{lat:.6f}, {lon:.6f}\n"` inserted at
`state_anchor + len(state) + 1`, a hyperlink to the url spanning exactly the
trimmed coordinate text (excluding the trailing newline), and NORMAL_TEXT
paragraph style over the whole line — where the state anchor is the found
state heading's start index when one exists (*not* adjusted for a country
heading inserted earlier in the same batch), and otherwise
`country_anchor + len(country) + 1` computed after any country insertion. -/
theorem claim_C5 (d : List Para) (url : List Char) (lat lon : PyFloat)
    (country state : List Char) (reqs : List DocRequest)
    (h : archive_location d url lat lon country state = some reqs) :
    ∃ pre si,
      si = (match (findHeaders d 1 country state).2 with
            | some x => x
            | none => (findHeaders d 1 country state).1.getD 1 + country.length + 1) ∧
      pyStrip (formatCoord lat lon ++ ['\n']) = formatCoord lat lon ∧
      reqs = pre ++
        [.insertText (si + state.length + 1) (formatCoord lat lon ++ ['\n']),
         .updateTextStyle (si + state.length + 1)
           (si + state.length + 1 + (formatCoord lat lon).length) url,
         .updateParagraphStyle (si + state.length + 1)
           (si + state.length + 1 + (formatCoord lat lon ++ ['\n']).length) "NORMAL_TEXT"] := by
  unfold archive_location at h
  split at h
  · exact absurd h (by simp)
  · rcases hf : findHeaders d 1 country state with ⟨ciOpt, siOpt⟩
    rw [hf] at h
    cases siOpt with
    | some si0 =>
      cases ciOpt with
      | some ci0 =>
        simp only [Option.some.injEq, Option.getD_some] at h
        refine ⟨[], si0, by simp [hf], pyStrip_coord_line lat lon, ?_⟩
        rw [← h, pyStrip_coord_line lat lon]
        rfl
      | none =>
        simp only [Option.some.injEq, Option.getD_none] at h
        refine ⟨[.insertText 1 (country ++ ['\n']),
                 .updateParagraphStyle 1 (country.length + 2) "HEADING_1"],
                si0, by simp [hf], pyStrip_coord_line lat lon, ?_⟩
        rw [← h, pyStrip_coord_line lat lon]
        rfl
    | none =>
      cases ciOpt with
      | some ci0 =>
        simp only [Option.some.injEq, Option.getD_some] at h
        refine ⟨[.insertText (ci0 + country.length + 1) (state ++ ['\n']),
                 .updateParagraphStyle (ci0 + country.length + 1)
                   (ci0 + country.length + 1 + state.length + 1) "HEADING_2"],
                ci0 + country.length + 1, by simp [hf], pyStrip_coord_line lat lon, ?_⟩
        rw [← h, pyStrip_coord_line lat lon]
        rfl
      | none =>
        simp only [Option.some.injEq, Option.getD_none] at h
        refine ⟨[.insertText 1 (country ++ ['\n']),
                 .updateParagraphStyle 1 (country.length + 2) "HEADING_1",
                 .insertText (1 + country.length + 1) (state ++ ['\n']),
                 .updateParagraphStyle (1 + country.length + 1)
                   (1 + country.length + 1 + state.length + 1) "HEADING_2"],
                1 + country.length + 1, by simp [hf], pyStrip_coord_line lat lon, ?_⟩
        rw [← h, pyStrip_coord_line lat lon]
        rfl

/-- C5, witness for the amended theorem. -/
theorem claim_C5_witness :
    ∃ pre si,
      si = (match (findHeaders [⟨"Hello\n".data, "NORMAL_TEXT"⟩] 1
                    "Testland".data "Weststate".data).2 with
            | some x => x
            | none => (findHeaders [⟨"Hello\n".data, "NORMAL_TEXT"⟩] 1
                    "Testland".data "Weststate".data).1.getD 1 + "Testland".data.length + 1) ∧
      pyStrip (formatCoord ⟨false, 15, 1⟩ ⟨false, 25, 1⟩ ++ ['\n'])
        = formatCoord ⟨false, 15, 1⟩ ⟨false, 25, 1⟩ ∧
      (archive_location [⟨"Hello\n".data, "NORMAL_TEXT"⟩] "u1".data
          ⟨false, 15, 1⟩ ⟨false, 25, 1⟩ "Testland".data "Weststate".data).getD []
        = pre ++
          [.insertText (si + "Weststate".data.length + 1)
             (formatCoord ⟨false, 15, 1⟩ ⟨false, 25, 1⟩ ++ ['\n']),
           .updateTextStyle (si + "Weststate".data.length + 1)
             (si + "Weststate".data.length + 1
               + (formatCoord ⟨false, 15, 1⟩ ⟨false, 25, 1⟩).length) "u1".data,
           .updateParagraphStyle (si + "Weststate".data.length + 1)
             (si + "Weststate".data.length + 1
               + (formatCoord ⟨false, 15, 1⟩ ⟨false, 25, 1⟩ ++ ['\n']).length) "NORMAL_TEXT"] := by
  obtain ⟨pre, si, h1, h2, h3⟩ :=
    claim_C5 [⟨"Hello\n".data, "NORMAL_TEXT"⟩] "u1".data ⟨false, 15, 1⟩ ⟨false, 25, 1⟩
      "Testland".data "Weststate".data
      ((archive_location [⟨"Hello\n".data, "NORMAL_TEXT"⟩] "u1".data
          ⟨false, 15, 1⟩ ⟨false, 25, 1⟩ "Testland".data "Weststate".data).getD [])
      (by decide)
  exact ⟨pre, si, h1, h2, h3⟩

/-! ### The document model: splitting, lengths, styling -/

lemma splitLines_cons (c : Char) (cs : List Char) :
    splitLines (c :: cs) =
      if c = '\n' then ['\n'] :: splitLines cs
      else match splitLines cs with
        | [] => [[c]]
        | l :: ls => (c :: l) :: ls := rfl

lemma splitLines_join : ∀ cs : List Char, (splitLines cs).join = cs := by
  intro cs
  induction cs with
  | nil => rfl
  | cons c cs ih =>
    rw [splitLines_cons]
    by_cases hc : c = '\n'
    · rw [if_pos hc, hc]
      simp [ih]
    · rw [if_neg hc]
      rcases hsl : splitLines cs with _ | ⟨l, ls⟩
      · rw [hsl] at ih
        simp only [List.join_nil] at ih
        have hcs : cs = [] := ih.symm
        subst hcs
        rfl
      · rw [hsl] at ih
        simp only [List.join_cons] at ih ⊢
        rw [List.cons_append, ih]

lemma splitLines_eq_nil_iff (cs : List Char) : splitLines cs = [] ↔ cs = [] := by
  constructor
  · intro h
    have := splitLines_join cs
    rw [h] at this
    simpa using this.symm
  · intro h
    rw [h]
    rfl

lemma splitLines_mem_sub (cs l : List Char) (h : l ∈ splitLines cs) : l <:+: cs := by
  obtain ⟨s, t, hst⟩ := List.append_of_mem h
  refine ⟨s.join, t.join, ?_⟩
  have hj := splitLines_join cs
  rw [hst] at hj
  rw [← hj]
  simp [List.join_append, List.append_assoc]

lemma splitLines_append_newline :
    ∀ (a b : List Char), '\n' ∉ a →
      splitLines (a ++ '\n' :: b) = (a ++ ['\n']) :: splitLines b := by
  intro a
  induction a with
  | nil =>
    intro b _
    simp only [List.nil_append]
    rw [splitLines_cons, if_pos rfl]
  | cons c a ih =>
    intro b hna
    have hc : c ≠ '\n' := fun e => hna (e ▸ List.mem_cons_self _ _)
    have ha : '\n' ∉ a := fun m => hna (List.mem_cons_of_mem _ m)
    rw [List.cons_append, splitLines_cons, if_neg hc, ih b ha]
    rfl

lemma splitLines_decomp (fmt : List Char) (hn : '\n' ∉ fmt) :
    ∀ (x y : List Char), ∃ w u, x = w ++ u ∧ '\n' ∉ u ∧
      splitLines (x ++ (fmt ++ '\n' :: y))
        = splitLines w ++ (u ++ fmt ++ ['\n']) :: splitLines y := by
  intro x
  induction x with
  | nil =>
    intro y
    refine ⟨[], [], rfl, by simp, ?_⟩
    simp only [List.nil_append]
    rw [show fmt ++ '\n' :: y = fmt ++ '\n' :: y from rfl, splitLines_append_newline fmt y hn]
    rfl
  | cons c x ih =>
    intro y
    obtain ⟨w, u, hwu, hnu, hsl⟩ := ih y
    by_cases hc : c = '\n'
    · refine ⟨c :: w, u, by rw [hwu, List.cons_append], hnu, ?_⟩
      rw [List.cons_append, splitLines_cons, if_pos hc, hsl, splitLines_cons, if_pos hc]
      rfl
    · cases w with
      | nil =>
        rw [List.nil_append] at hwu
        refine ⟨[], c :: u, by rw [hwu]; rfl, ?_, ?_⟩
        · intro hm
          rcases List.mem_cons.mp hm with h1 | h2
          · exact hc h1.symm
          · exact hnu h2
        · rw [List.cons_append, splitLines_cons, if_neg hc, hsl]
          rfl
      | cons w0 wt =>
        refine ⟨c :: w0 :: wt, u, by rw [hwu, List.cons_append]; rfl, hnu, ?_⟩
        rcases hsw : splitLines (w0 :: wt) with _ | ⟨l0, ls⟩
        · exact absurd ((splitLines_eq_nil_iff _).mp hsw) (by simp)
        · rw [List.cons_append, splitLines_cons, if_neg hc, hsl,
            splitLines_cons c (w0 :: wt), if_neg hc, hsw, List.cons_append]
          rfl

lemma docLen_append (A B : List Para) : docLen (A ++ B) = docLen A + docLen B := by
  unfold docLen
  rw [List.map_append, List.sum_append]

lemma docLen_splitParas (cs : List Char) (st : String) : docLen (splitParas cs st) = cs.length := by
  unfold docLen splitParas
  rw [List.map_map]
  have h : ((fun p : Para => p.text.length) ∘ fun l => Para.mk l st)
      = fun l : List Char => l.length := rfl
  rw [h, ← List.length_join,
    show (splitLines cs).flatten = cs from splitLines_join cs]


lemma docLen_cons (p : Para) (ps : List Para) : docLen (p :: ps) = p.text.length + docLen ps := by
  unfold docLen
  rw [List.map_cons, List.sum_cons]

lemma docLen_nil : docLen [] = 0 := rfl

lemma styleRange_nil (off s e : Nat) (st : String) : styleRange [] off s e st = [] := rfl

lemma styleRange_cons (p : Para) (ps : List Para) (off s e : Nat) (st : String) :
    styleRange (p :: ps) off s e st =
      (if s < off + p.text.length ∧ off < e then { p with style := st } else p) ::
        styleRange ps (off + p.text.length) s e st := rfl

lemma styleRange_untouched : ∀ (A : List Para) (off s e : Nat) (st : String),
    off + docLen A ≤ s → styleRange A off s e st = A := by
  intro A
  induction A with
  | nil => intro off s e st _; rfl
  | cons p ps ih =>
    intro off s e st h
    rw [docLen_cons] at h
    rw [styleRange_cons, if_neg (by omega), ih (off + p.text.length) s e st (by omega)]

lemma styleRange_untouched_after : ∀ (B : List Para) (off s e : Nat) (st : String),
    e ≤ off → styleRange B off s e st = B := by
  intro B
  induction B with
  | nil => intro off s e st _; rfl
  | cons p ps ih =>
    intro off s e st h
    rw [styleRange_cons, if_neg (by omega), ih (off + p.text.length) s e st (by omega)]

lemma styleRange_append : ∀ (A B : List Para) (off s e : Nat) (st : String),
    styleRange (A ++ B) off s e st
      = styleRange A off s e st ++ styleRange B (off + docLen A) s e st := by
  intro A
  induction A with
  | nil =>
    intro B off s e st
    simp [docLen_nil, styleRange_nil]
  | cons p ps ih =>
    intro B off s e st
    rw [List.cons_append, styleRange_cons, ih B (off + p.text.length) s e st, styleRange_cons,
      docLen_cons, List.cons_append]
    have : off + p.text.length + docLen ps = off + (p.text.length + docLen ps) := by omega
    rw [this]

lemma docLen_styleRange : ∀ (A : List Para) (off s e : Nat) (st : String),
    docLen (styleRange A off s e st) = docLen A := by
  intro A
  induction A with
  | nil => intro off s e st; rfl
  | cons p ps ih =>
    intro off s e st
    rw [styleRange_cons, docLen_cons, docLen_cons, ih]
    by_cases h : s < off + p.text.length ∧ off < e
    · rw [if_pos h]
    · rw [if_neg h]

lemma docLen_insertTextAt : ∀ (d : List Para) (i : Nat) (t : List Char),
    docLen (insertTextAt d i t) = docLen d + t.length := by
  intro d
  induction d with
  | nil =>
    intro i t
    unfold insertTextAt
    rw [docLen_splitParas, docLen_nil]
    omega
  | cons p ps ih =>
    intro i t
    unfold insertTextAt
    by_cases h : i < p.text.length ∨ ps = []
    · rw [if_pos h, docLen_append, docLen_splitParas, docLen_cons]
      have h1 := List.take_append_drop i p.text
      have h2 := congrArg List.length h1
      rw [List.length_append] at h2
      simp only [List.length_append] at *
      omega
    · rw [if_neg h, docLen_cons, docLen_cons, ih]
      omega

lemma insertTextAt_decomp (fmt : List Char) (hn : '\n' ∉ fmt) :
    ∀ (d : List Para) (i : Nat), ∃ A u st B,
      insertTextAt d i (fmt ++ ['\n']) = A ++ ⟨u ++ fmt ++ ['\n'], st⟩ :: B ∧
      '\n' ∉ u ∧
      ((∃ q ∈ d, st = q.style ∧ u <:+: q.text) ∨ (u = [] ∧ st = "NORMAL_TEXT")) ∧
      (∀ p ∈ A, ∃ q ∈ d, p.text <:+: q.text ∧ p.style = q.style) ∧
      (∀ p ∈ B, ∃ q ∈ d, p.text <:+: q.text ∧ p.style = q.style) ∧
      docLen A + u.length = min i (docLen d) ∧
      docLen A + u.length + docLen B = docLen d ∧
      (docLen d < i → B = []) := by
  intro d
  induction d with
  | nil =>
    intro i
    refine ⟨[], [], "NORMAL_TEXT", [], ?_, by simp, Or.inr ⟨rfl, rfl⟩, by simp, by simp,
      by simp [docLen_nil], by simp [docLen_nil], fun _ => rfl⟩
    show splitParas (fmt ++ ['\n']) "NORMAL_TEXT" = _
    unfold splitParas
    rw [show fmt ++ ['\n'] = fmt ++ '\n' :: [] from rfl, splitLines_append_newline fmt [] hn]
    rfl
  | cons p ps ih =>
    intro i
    by_cases hcond : i < p.text.length ∨ ps = []
    · obtain ⟨w, u, hwu, hnu, hsl⟩ := splitLines_decomp fmt hn (p.text.take i) (p.text.drop i)
      have hxinfix : ∀ l, l <:+: p.text.take i → l <:+: p.text :=
        fun l hl => hl.trans (List.take_prefix i p.text).isInfix
      have hu_suffix : u <:+: p.text.take i := ⟨w, [], by rw [← hwu]; simp⟩
      refine ⟨splitParas w p.style, u, p.style, splitParas (p.text.drop i) p.style ++ ps,
        ?_, hnu, Or.inl ⟨p, List.mem_cons_self _ _, rfl, hxinfix u hu_suffix⟩, ?_, ?_, ?_, ?_, ?_⟩
      · show insertTextAt (p :: ps) i (fmt ++ ['\n']) = _
        unfold insertTextAt
        rw [if_pos hcond]
        unfold splitParas
        rw [List.append_assoc, show (fmt ++ ['\n']) ++ p.text.drop i
              = fmt ++ '\n' :: p.text.drop i by simp, hsl]
        rw [List.map_append, List.map_cons]
        simp only [List.append_assoc, List.cons_append]
      · intro pa hpa
        unfold splitParas at hpa
        obtain ⟨l, hl, hpl⟩ := List.mem_map.mp hpa
        refine ⟨p, List.mem_cons_self _ _, ?_, by rw [← hpl]⟩
        rw [← hpl]
        exact hxinfix l ((splitLines_mem_sub w l hl).trans
          ⟨[], u, by simp only [List.nil_append]; exact hwu.symm⟩)
      · intro pb hpb
        rcases List.mem_append.mp hpb with h1 | h2
        · unfold splitParas at h1
          obtain ⟨l, hl, hpl⟩ := List.mem_map.mp h1
          refine ⟨p, List.mem_cons_self _ _, ?_, by rw [← hpl]⟩
          rw [← hpl]
          exact ((splitLines_mem_sub _ l hl).trans (List.drop_suffix i p.text).isInfix)
        · exact ⟨pb, List.mem_cons_of_mem _ h2, List.infix_refl _, rfl⟩
      · rw [docLen_splitParas, docLen_cons]
        have : w.length + u.length = (p.text.take i).length := by
          rw [hwu, List.length_append]
        rw [List.length_take] at this
        rcases hcond with hlt | hnil
        · omega
        · subst hnil
          rw [docLen_nil]
          omega
      · rw [docLen_splitParas, docLen_append, docLen_splitParas, docLen_cons]
        have h1 : w.length + u.length = (p.text.take i).length := by
          rw [hwu, List.length_append]
        have h2 := List.take_append_drop i p.text
        have h3 := congrArg List.length h2
        rw [List.length_append] at h3
        omega
      · intro hlarge
        rw [docLen_cons] at hlarge
        have hnil : ps = [] := by
          rcases hcond with hlt | hnil
          · omega
          · exact hnil
        subst hnil
        rw [docLen_nil] at hlarge
        have hdrop : p.text.drop i = [] := List.drop_eq_nil_of_le (by omega)
        rw [hdrop]
        show splitParas [] p.style ++ [] = []
        rfl
    · push_neg at hcond
      obtain ⟨hge, hps⟩ := hcond
      obtain ⟨A, u, st, B, heq, hnu, hst, hA, hB, hmin, htot, hlarge⟩ := ih (i - p.text.length)
      refine ⟨p :: A, u, st, B, ?_, hnu, ?_, ?_, ?_, ?_, ?_, ?_⟩
      · show insertTextAt (p :: ps) i (fmt ++ ['\n']) = _
        unfold insertTextAt
        rw [if_neg (by push_neg; exact ⟨hge, hps⟩), heq]
        rfl
      · rcases hst with ⟨q, hq, hqs, hqi⟩ | hre
        · exact Or.inl ⟨q, List.mem_cons_of_mem _ hq, hqs, hqi⟩
        · exact Or.inr hre
      · intro pa hpa
        rcases List.mem_cons.mp hpa with h1 | h2
        · exact ⟨p, List.mem_cons_self _ _, by rw [h1], by rw [h1]⟩
        · obtain ⟨q, hq, hqi, hqs⟩ := hA pa h2
          exact ⟨q, List.mem_cons_of_mem _ hq, hqi, hqs⟩
      · intro pb hpb
        obtain ⟨q, hq, hqi, hqs⟩ := hB pb hpb
        exact ⟨q, List.mem_cons_of_mem _ hq, hqi, hqs⟩
      · rw [docLen_cons, docLen_cons]
        have hle : p.text.length ≤ i := hge
        omega
      · rw [docLen_cons, docLen_cons]
        omega
      · intro hbig
        rw [docLen_cons] at hbig
        exact hlarge (by omega)

lemma infix_append_newline (fmt u : List Char) (hn : '\n' ∉ fmt) (hf : fmt ≠ [])
    (h : fmt <:+: u ++ ['\n']) : fmt <:+: u := by
  obtain ⟨s, t, hst⟩ := h
  rcases List.eq_nil_or_concat t with rfl | ⟨t0, b, rfl⟩
  · exfalso
    rw [List.append_nil] at hst
    have hlast : (s ++ fmt).getLast? = (u ++ ['\n']).getLast? := by rw [hst]
    rw [List.getLast?_append_of_ne_nil _ hf, List.getLast?_append_of_ne_nil _ (by simp)] at hlast
    simp only [List.getLast?_singleton] at hlast
    exact hn (mem_of_getLast?_eq hlast)
  · have hre : (s ++ fmt ++ t0) ++ [b] = u ++ ['\n'] := by
      rw [← hst]
      simp [List.append_assoc]
    have := List.append_inj' hre (by rfl)
    exact ⟨s, t0, this.1⟩

lemma dropWhile_length_le (p : Char → Bool) : ∀ l : List Char, (l.dropWhile p).length ≤ l.length := by
  intro l
  induction l with
  | nil => simp
  | cons a l ih =>
    rw [List.dropWhile_cons]
    by_cases h : p a = true
    · rw [h]
      simp only [if_true]
      exact Nat.le_trans ih (by simp)
    · rw [Bool.not_eq_true] at h
      rw [h]
      simp

lemma pyStrip_length_le (cs : List Char) : (pyStrip cs).length ≤ cs.length := by
  unfold pyStrip
  calc (((cs.dropWhile isPyWs).reverse.dropWhile isPyWs)).reverse.length
      = ((cs.dropWhile isPyWs).reverse.dropWhile isPyWs).length := List.length_reverse _
    _ ≤ (cs.dropWhile isPyWs).reverse.length := dropWhile_length_le _ _
    _ = (cs.dropWhile isPyWs).length := List.length_reverse _
    _ ≤ cs.length := dropWhile_length_le _ _

lemma findHeaders_cons (p : Para) (ps : List Para) (idx : Nat) (c s : List Char) :
    findHeaders (p :: ps) idx c s =
      ((match (findHeaders ps (idx + p.text.length) c s).1 with
        | some v => some v
        | none => if pyStrip p.text = c then some idx else none),
       (match (findHeaders ps (idx + p.text.length) c s).2 with
        | some v => some v
        | none => if pyStrip p.text ≠ c ∧ pyStrip p.text = s then some idx else none)) := rfl

lemma findHeaders_snd_mem : ∀ (d : List Para) (idx : Nat) (c s : List Char) (x : Nat),
    (findHeaders d idx c s).2 = some x →
    ∃ pre p post, d = pre ++ p :: post ∧ x = idx + docLen pre ∧ pyStrip p.text = s := by
  intro d
  induction d with
  | nil => intro idx c s x h; exact absurd h (by simp [findHeaders])
  | cons p ps ih =>
    intro idx c s x h
    rw [findHeaders_cons] at h
    simp only at h
    rcases hr : (findHeaders ps (idx + p.text.length) c s).2 with _ | s0
    · rw [hr] at h
      simp only at h
      split at h
      · rename_i hcond
        simp only [Option.some.injEq] at h
        exact ⟨[], p, ps, rfl, by rw [docLen_nil]; omega, hcond.2⟩

      · exact absurd h (by simp)
    · rw [hr] at h
      simp only [Option.some.injEq] at h
      subst h
      obtain ⟨pre, q, post, hd, hx, hs⟩ := ih (idx + p.text.length) c s s0 hr
      refine ⟨p :: pre, q, post, by rw [hd]; rfl, ?_, hs⟩
      rw [hx, docLen_cons]
      omega

lemma findHeaders_fst_mem : ∀ (d : List Para) (idx : Nat) (c s : List Char) (x : Nat),
    (findHeaders d idx c s).1 = some x →
    ∃ pre p post, d = pre ++ p :: post ∧ x = idx + docLen pre ∧ pyStrip p.text = c := by
  intro d
  induction d with
  | nil => intro idx c s x h; exact absurd h (by simp [findHeaders])
  | cons p ps ih =>
    intro idx c s x h
    rw [findHeaders_cons] at h
    simp only at h
    rcases hr : (findHeaders ps (idx + p.text.length) c s).1 with _ | s0
    · rw [hr] at h
      simp only at h
      split at h
      · rename_i hcond
        simp only [Option.some.injEq] at h
        exact ⟨[], p, ps, rfl, by rw [docLen_nil]; omega, hcond⟩
      · exact absurd h (by simp)
    · rw [hr] at h
      simp only [Option.some.injEq] at h
      subst h
      obtain ⟨pre, q, post, hd, hx, hs⟩ := ih (idx + p.text.length) c s s0 hr
      refine ⟨p :: pre, q, post, by rw [hd]; rfl, ?_, hs⟩
      rw [hx, docLen_cons]
      omega

lemma findHeaders_snd_none : ∀ (d : List Para) (idx : Nat) (c s : List Char),
    (∀ q ∈ d, pyStrip q.text ≠ s) → (findHeaders d idx c s).2 = none := by
  intro d
  induction d with
  | nil => intro idx c s _; rfl
  | cons p ps ih =>
    intro idx c s hall
    rw [findHeaders_cons]
    simp only
    rw [ih (idx + p.text.length) c s fun q hq => hall q (List.mem_cons_of_mem _ hq)]
    rw [if_neg fun hcond => hall p (List.mem_cons_self _ _) hcond.2]

lemma findHeaders_snd_unique : ∀ (D1 : List Para) (p : Para) (D2 : List Para)
    (idx : Nat) (c s : List Char),
    (∀ q ∈ D1, pyStrip q.text ≠ s) → (∀ q ∈ D2, pyStrip q.text ≠ s) →
    pyStrip p.text = s → pyStrip p.text ≠ c →
    (findHeaders (D1 ++ p :: D2) idx c s).2 = some (idx + docLen D1) := by
  intro D1
  induction D1 with
  | nil =>
    intro p D2 idx c s _ h2 hs hc
    rw [List.nil_append, findHeaders_cons]
    simp only
    rw [findHeaders_snd_none D2 _ c s h2, if_pos ⟨hc, hs⟩, docLen_nil]
    rfl
  | cons q D1' ih =>
    intro p D2 idx c s h1 h2 hs hc
    rw [List.cons_append, findHeaders_cons]
    simp only
    rw [ih p D2 (idx + q.text.length) c s
      (fun r hr => h1 r (List.mem_cons_of_mem _ hr)) h2 hs hc, docLen_cons]
    show some (idx + q.text.length + docLen D1') = some (idx + (q.text.length + docLen D1'))
    congr 1
    omega

lemma findHeaders_fst_isSome : ∀ (d : List Para) (idx : Nat) (c s : List Char),
    (∃ p ∈ d, pyStrip p.text = c) → (findHeaders d idx c s).1.isSome = true := by
  intro d
  induction d with
  | nil => intro idx c s ⟨p, hp, _⟩; simp at hp
  | cons p ps ih =>
    intro idx c s ⟨q, hq, hqc⟩
    rw [findHeaders_cons]
    simp only
    rcases hr : (findHeaders ps (idx + p.text.length) c s).1 with _ | v
    · rcases List.mem_cons.mp hq with h1 | h2
      · rw [if_pos (h1 ▸ hqc)]
        rfl
      · have := ih (idx + p.text.length) c s ⟨q, h2, hqc⟩
        rw [hr] at this
        simp at this
    · rfl

lemma block_decomp (body : List Char) (hn : '\n' ∉ body) (d : List Para) (i0 : Nat) (sty : String)
    (hle : i0 ≤ docLen d + 1) :
    ∃ A u st' B,
      styleRange (insertTextAt d i0 (body ++ ['\n'])) 0 i0 (i0 + (body.length + 1)) sty
        = A ++ ⟨u ++ body ++ ['\n'], st'⟩ :: B ∧
      '\n' ∉ u ∧
      (st' = sty ∨ (body = [] ∧
        ((∃ q ∈ d, st' = q.style ∧ u <:+: q.text) ∨ (u = [] ∧ st' = "NORMAL_TEXT")))) ∧
      (∀ p ∈ A, ∃ q ∈ d, p.text <:+: q.text ∧ p.style = q.style) ∧
      (∀ p ∈ B, ∃ q ∈ d, p.text <:+: q.text ∧ p.style = q.style) := by
  obtain ⟨A, u, st, B, heq, hnu, hst, hA, hB, hmin, htot, hlarge⟩ :=
    insertTextAt_decomp body hn d i0
  rw [heq, styleRange_append, styleRange_cons]
  simp only [Nat.zero_add, List.length_append, List.length_singleton]
  have hAu : styleRange A 0 i0 (i0 + (body.length + 1)) sty = A :=
    styleRange_untouched A 0 _ _ sty (by omega)
  rw [hAu]
  by_cases hin : i0 ≤ docLen d
  · have hm : docLen A + u.length = i0 := by rw [hmin]; omega
    have hBu : styleRange B (docLen A + (u.length + body.length + 1))
        i0 (i0 + (body.length + 1)) sty = B :=
      styleRange_untouched_after B _ _ _ sty (by omega)
    rw [hBu, if_pos (by constructor <;> omega)]
    exact ⟨A, u, sty, B, rfl, hnu, Or.inl rfl, hA, hB⟩
  · have hi0 : i0 = docLen d + 1 := by omega
    have hm : docLen A + u.length = docLen d := by rw [hmin]; omega
    have hBnil : B = [] := hlarge (by omega)
    subst hBnil
    by_cases hbody : body = []
    · subst hbody
      rw [if_neg (by simp only [List.length_nil]; omega)]
      refine ⟨A, u, st, [], by rw [styleRange_nil], hnu, Or.inr ⟨rfl, ?_⟩, hA, by simp⟩
      rcases hst with h | h
      · exact Or.inl h
      · exact Or.inr h
    · have hbl : 0 < body.length := List.length_pos.mpr hbody
      rw [if_pos (by constructor <;> omega)]
      exact ⟨A, u, sty, [], by rw [styleRange_nil], hnu, Or.inl rfl, hA, by simp⟩

lemma block_safe (body fmt : List Char) (hn : '\n' ∉ body) (hnf : '\n' ∉ fmt) (hf : fmt ≠ [])
    (d : List Para) (i0 : Nat) (sty : String) (hsty : sty ≠ "NORMAL_TEXT")
    (hle : i0 ≤ docLen d + 1)
    (hsafe : ∀ p ∈ d, p.style = "NORMAL_TEXT" → ¬ fmt <:+: p.text) :
    ∀ p ∈ styleRange (insertTextAt d i0 (body ++ ['\n'])) 0 i0 (i0 + (body.length + 1)) sty,
      p.style = "NORMAL_TEXT" → ¬ fmt <:+: p.text := by
  obtain ⟨A, u, st', B, heq, hnu, hst, hA, hB⟩ := block_decomp body hn d i0 sty hle
  rw [heq]
  intro p hp hnorm hinf
  rcases List.mem_append.mp hp with hpa | hpc
  · obtain ⟨q, hq, hqi, hqs⟩ := hA p hpa
    exact hsafe q hq (hqs ▸ hnorm) (hinf.trans hqi)
  · rcases List.mem_cons.mp hpc with hpc1 | hpb
    · rcases hst with hsty' | ⟨hbody, horig⟩
      · rw [hpc1] at hnorm
        simp only at hnorm
        exact hsty (hsty' ▸ hnorm)
      · subst hbody
        rw [hpc1] at hinf hnorm
        simp only [List.append_nil] at hinf
        have hfu : fmt <:+: u := infix_append_newline fmt u hnf hf hinf
        rcases horig with ⟨q, hq, hqsty, hqinf⟩ | ⟨hunil, hnst⟩
        · exact hsafe q hq (by rw [← hqsty]; exact hnorm) (hfu.trans hqinf)
        · subst hunil
          exact hf (List.eq_nil_of_infix_nil hfu)
    · obtain ⟨q, hq, hqi, hqs⟩ := hB p hpb
      exact hsafe q hq (hqs ▸ hnorm) (hinf.trans hqi)

lemma coord_block_props (lat lon : PyFloat) (url : List Char) (d : List Para) (i0 : Nat)
    (hle : i0 ≤ docLen d + 1)
    (hsafe : ∀ p ∈ d, p.style = "NORMAL_TEXT" → ¬ formatCoord lat lon <:+: p.text) :
    countNormalCoord (styleRange
        (insertTextAt d i0 (formatCoord lat lon ++ ['\n'])) 0 i0
        (i0 + ((formatCoord lat lon).length + 1)) "NORMAL_TEXT") lat lon = 1 ∧
    location_exists_in_doc (styleRange
        (insertTextAt d i0 (formatCoord lat lon ++ ['\n'])) 0 i0
        (i0 + ((formatCoord lat lon).length + 1)) "NORMAL_TEXT") lat lon url = true := by
  obtain ⟨A, u, st', B, heq, hnu, hst, hA, hB⟩ :=
    block_decomp (formatCoord lat lon) (formatCoord_no_newline lat lon) d i0 "NORMAL_TEXT" hle
  have hst' : st' = "NORMAL_TEXT" := by
    rcases hst with h | ⟨hbody, -⟩
    · exact h
    · exact absurd hbody (formatCoord_ne_nil lat lon)
  subst hst'
  rw [heq]
  have hchunk_infix : formatCoord lat lon <:+: u ++ formatCoord lat lon ++ ['\n'] :=
    ⟨u, ['\n'], rfl⟩
  constructor
  · unfold countNormalCoord
    rw [List.countP_append, List.countP_cons]
    have hzA : A.countP (fun p => p.style == "NORMAL_TEXT"
        && isSubstr (formatCoord lat lon) p.text) = 0 := by
      rw [List.countP_eq_zero]
      intro p hp
      obtain ⟨q, hq, hqi, hqs⟩ := hA p hp
      simp only [Bool.and_eq_true, beq_iff_eq, Bool.not_eq_true]
      intro ⟨h1, h2⟩
      exact hsafe q hq (hqs ▸ h1) ((of_decide_eq_true h2).trans hqi)
    have hzB : B.countP (fun p => p.style == "NORMAL_TEXT"
        && isSubstr (formatCoord lat lon) p.text) = 0 := by
      rw [List.countP_eq_zero]
      intro p hp
      obtain ⟨q, hq, hqi, hqs⟩ := hB p hp
      simp only [Bool.and_eq_true, beq_iff_eq, Bool.not_eq_true]
      intro ⟨h1, h2⟩
      exact hsafe q hq (hqs ▸ h1) ((of_decide_eq_true h2).trans hqi)
    rw [hzA, hzB]
    have hpred : ((⟨u ++ formatCoord lat lon ++ ['\n'], "NORMAL_TEXT"⟩ : Para).style
        == "NORMAL_TEXT" && isSubstr (formatCoord lat lon)
          (⟨u ++ formatCoord lat lon ++ ['\n'], "NORMAL_TEXT"⟩ : Para).text) = true := by
      simp only [beq_self_eq_true, Bool.true_and]
      exact decide_eq_true hchunk_infix
    rw [hpred]
    rfl
  · unfold location_exists_in_doc
    rw [List.any_eq_true]
    refine ⟨⟨u ++ formatCoord lat lon ++ ['\n'], "NORMAL_TEXT"⟩,
      List.mem_append.mpr (Or.inr (List.mem_cons_self _ _)), ?_⟩
    rw [Bool.or_eq_true]
    exact Or.inl (decide_eq_true hchunk_infix)

lemma location_free (d : List Para) (lat lon : PyFloat) (url : List Char)
    (h : location_exists_in_doc d lat lon url = false) :
    ∀ p ∈ d, ¬ (formatCoord lat lon <:+: p.text) ∧ ¬ (url <:+: p.text) := by
  unfold location_exists_in_doc at h
  rw [List.any_eq_false] at h
  intro p hp
  have := h p hp
  rw [Bool.or_eq_true] at this
  push_neg at this
  constructor
  · intro hc
    exact this.1 (decide_eq_true hc)
  · intro hc
    exact this.2 (decide_eq_true hc)

lemma archive_none_of_exists (d : List Para) (url : List Char) (lat lon : PyFloat)
    (country state : List Char) (h : location_exists_in_doc d lat lon url = true) :
    archive_location d url lat lon country state = none := by
  unfold archive_location
  rw [if_pos h]

lemma applyReqs_block (d : List Para) (k e : Nat) (body : List Char) (sty : String)
    (he : e - 1 = (k - 1) + (body.length + 1)) :
    applyReqs d [.insertText k (body ++ ['\n']), .updateParagraphStyle k e sty]
      = styleRange (insertTextAt d (k - 1) (body ++ ['\n'])) 0 (k - 1)
          ((k - 1) + (body.length + 1)) sty := by
  unfold applyReqs
  simp only [List.foldl_cons, List.foldl_nil, applyReq]
  rw [he]

lemma applyReqs_coord (d : List Para) (ci : Nat) (url : List Char) (lat lon : PyFloat)
    (hci : 1 ≤ ci) :
    applyReqs d [.insertText ci (formatCoord lat lon ++ ['\n']),
       .updateTextStyle ci (ci + (pyStrip (formatCoord lat lon ++ ['\n'])).length) url,
       .updateParagraphStyle ci (ci + (formatCoord lat lon ++ ['\n']).length) "NORMAL_TEXT"]
      = styleRange (insertTextAt d (ci - 1) (formatCoord lat lon ++ ['\n'])) 0 (ci - 1)
          ((ci - 1) + ((formatCoord lat lon).length + 1)) "NORMAL_TEXT" := by
  unfold applyReqs
  simp only [List.foldl_cons, List.foldl_nil, applyReq]
  congr 1
  rw [List.length_append, List.length_singleton]
  omega

lemma docLen_block (d : List Para) (i0 : Nat) (body : List Char) (sty : String) :
    docLen (styleRange (insertTextAt d i0 (body ++ ['\n'])) 0 i0
      (i0 + (body.length + 1)) sty) = docLen d + body.length + 1 := by
  rw [docLen_styleRange, docLen_insertTextAt, List.length_append, List.length_singleton]
  omega

lemma applyReqs_append (d : List Para) (r1 r2 : List DocRequest) :
    applyReqs d (r1 ++ r2) = applyReqs (applyReqs d r1) r2 := by
  unfold applyReqs
  rw [List.foldl_append]

lemma state_anchor_bound (d : List Para) (country state : List Char) (si0 : Nat)
    (h : (findHeaders d 1 country state).2 = some si0) :
    si0 + state.length ≤ docLen d + 1 := by
  obtain ⟨pre, p, post, hdec, hx, hs⟩ := findHeaders_snd_mem d 1 country state si0 h
  have h1 : state.length ≤ p.text.length := by
    rw [← hs]
    exact pyStrip_length_le _
  have h2 : docLen d = docLen pre + (p.text.length + docLen post) := by
    rw [hdec, docLen_append, docLen_cons]
  omega

lemma country_anchor_bound (d : List Para) (country state : List Char) (ci0 : Nat)
    (h : (findHeaders d 1 country state).1 = some ci0) :
    ci0 + country.length ≤ docLen d + 1 := by
  obtain ⟨pre, p, post, hdec, hx, hs⟩ := findHeaders_fst_mem d 1 country state ci0 h
  have h1 : country.length ≤ p.text.length := by
    rw [← hs]
    exact pyStrip_length_le _
  have h2 : docLen d = docLen pre + (p.text.length + docLen post) := by
    rw [hdec, docLen_append, docLen_cons]
  omega

/-- C1.  Archiving a record a second time is idempotent on the document: if a
first `archive_location` call on `d` issued the batch `reqs` (so the record
was not a duplicate), then on the updated document the same call finds the
formatted coordinate string as a substring of a paragraph, returns the
SkippedDuplicate outcome (`none`, issuing zero mutation requests), and the
document contains exactly one NORMAL_TEXT paragraph carrying the record's
coordinate string.  (The country and state labels are single-line, as all
real labels are.) -/
theorem claim_C1 (d : List Para) (url : List Char) (lat lon : PyFloat)
    (country state : List Char) (reqs : List DocRequest)
    (hnc : '\n' ∉ country) (hns : '\n' ∉ state)
    (h : archive_location d url lat lon country state = some reqs) :
    archive_location (applyReqs d reqs) url lat lon country state = none ∧
    countNormalCoord (applyReqs d reqs) lat lon = 1 := by
  unfold archive_location at h
  split at h
  · exact absurd h (by simp)
  rename_i hdup
  have hdup' : location_exists_in_doc d lat lon url = false := Bool.eq_false_iff.mpr hdup
  have hsafe0 : ∀ p ∈ d, p.style = "NORMAL_TEXT" → ¬ formatCoord lat lon <:+: p.text :=
    fun p hp _ => (location_free d lat lon url hdup' p hp).1
  have hfne : formatCoord lat lon ≠ [] := formatCoord_ne_nil lat lon
  have hfnn : '\n' ∉ formatCoord lat lon := formatCoord_no_newline lat lon
  rcases hf : findHeaders d 1 country state with ⟨ciOpt, siOpt⟩
  rw [hf] at h
  cases siOpt with
  | some si0 =>
    have hsb : si0 + state.length ≤ docLen d + 1 :=
      state_anchor_bound d country state si0 (by rw [hf])
    cases ciOpt with
    | some ci0 =>
      simp only [Option.some.injEq, Option.getD_some, List.nil_append] at h
      subst h
      rw [applyReqs_coord d (si0 + state.length + 1) url lat lon (by omega)]
      obtain ⟨hcount, hloc⟩ := coord_block_props lat lon url d (si0 + state.length + 1 - 1)
        (by omega) hsafe0
      exact ⟨archive_none_of_exists _ _ _ _ _ _ hloc, hcount⟩
    | none =>
      simp only [Option.some.injEq, Option.getD_none, List.nil_append] at h
      subst h
      simp only [List.append_nil]
      rw [show ([DocRequest.insertText 1 (country ++ ['\n']),
          DocRequest.updateParagraphStyle 1 (country.length + 2) "HEADING_1"] ++
          [DocRequest.insertText (si0 + state.length + 1) (formatCoord lat lon ++ ['\n']),
           DocRequest.updateTextStyle (si0 + state.length + 1)
             (si0 + state.length + 1 + (pyStrip (formatCoord lat lon ++ ['\n'])).length) url,
           DocRequest.updateParagraphStyle (si0 + state.length + 1)
             (si0 + state.length + 1 + (formatCoord lat lon ++ ['\n']).length) "NORMAL_TEXT"])
          = [DocRequest.insertText 1 (country ++ ['\n']),
             DocRequest.updateParagraphStyle 1 (country.length + 2) "HEADING_1"] ++
            [DocRequest.insertText (si0 + state.length + 1) (formatCoord lat lon ++ ['\n']),
             DocRequest.updateTextStyle (si0 + state.length + 1)
               (si0 + state.length + 1 + (pyStrip (formatCoord lat lon ++ ['\n'])).length) url,
             DocRequest.updateParagraphStyle (si0 + state.length + 1)
               (si0 + state.length + 1 + (formatCoord lat lon ++ ['\n']).length) "NORMAL_TEXT"]
          from rfl]
      rw [applyReqs_append, applyReqs_block d 1 (country.length + 2) country "HEADING_1" (by omega)]
      set d2 := styleRange (insertTextAt d (1 - 1) (country ++ ['\n'])) 0 (1 - 1)
        ((1 - 1) + (country.length + 1)) "HEADING_1" with hd2
      have hsafe2 : ∀ p ∈ d2, p.style = "NORMAL_TEXT" → ¬ formatCoord lat lon <:+: p.text :=
        block_safe country (formatCoord lat lon) hnc hfnn hfne d (1 - 1) "HEADING_1"
          (by decide) (by omega) hsafe0
      have hlen2 : docLen d2 = docLen d + country.length + 1 := docLen_block d (1 - 1) country _
      rw [applyReqs_coord d2 (si0 + state.length + 1) url lat lon (by omega)]
      obtain ⟨hcount, hloc⟩ := coord_block_props lat lon url d2 (si0 + state.length + 1 - 1)
        (by omega) hsafe2
      exact ⟨archive_none_of_exists _ _ _ _ _ _ hloc, hcount⟩
  | none =>
    cases ciOpt with
    | some ci0 =>
      have hcb : ci0 + country.length ≤ docLen d + 1 :=
        country_anchor_bound d country state ci0 (by rw [hf])
      simp only [Option.some.injEq, Option.getD_some, List.nil_append] at h
      subst h
      rw [show ([DocRequest.insertText (ci0 + country.length + 1) (state ++ ['\n']),
          DocRequest.updateParagraphStyle (ci0 + country.length + 1)
            (ci0 + country.length + 1 + state.length + 1) "HEADING_2"] ++
          [DocRequest.insertText (ci0 + country.length + 1 + state.length + 1)
             (formatCoord lat lon ++ ['\n']),
           DocRequest.updateTextStyle (ci0 + country.length + 1 + state.length + 1)
             (ci0 + country.length + 1 + state.length + 1
               + (pyStrip (formatCoord lat lon ++ ['\n'])).length) url,
           DocRequest.updateParagraphStyle (ci0 + country.length + 1 + state.length + 1)
             (ci0 + country.length + 1 + state.length + 1
               + (formatCoord lat lon ++ ['\n']).length) "NORMAL_TEXT"])
          = [DocRequest.insertText (ci0 + country.length + 1) (state ++ ['\n']),
             DocRequest.updateParagraphStyle (ci0 + country.length + 1)
               (ci0 + country.length + 1 + state.length + 1) "HEADING_2"] ++
            [DocRequest.insertText (ci0 + country.length + 1 + state.length + 1)
               (formatCoord lat lon ++ ['\n']),
             DocRequest.updateTextStyle (ci0 + country.length + 1 + state.length + 1)
               (ci0 + country.length + 1 + state.length + 1
                 + (pyStrip (formatCoord lat lon ++ ['\n'])).length) url,
             DocRequest.updateParagraphStyle (ci0 + country.length + 1 + state.length + 1)
               (ci0 + country.length + 1 + state.length + 1
                 + (formatCoord lat lon ++ ['\n']).length) "NORMAL_TEXT"]
          from rfl]
      rw [applyReqs_append, applyReqs_block d (ci0 + country.length + 1)
        (ci0 + country.length + 1 + state.length + 1) state "HEADING_2" (by omega)]
      set d2 := styleRange (insertTextAt d (ci0 + country.length + 1 - 1) (state ++ ['\n'])) 0
        (ci0 + country.length + 1 - 1) ((ci0 + country.length + 1 - 1) + (state.length + 1))
        "HEADING_2" with hd2
      have hsafe2 : ∀ p ∈ d2, p.style = "NORMAL_TEXT" → ¬ formatCoord lat lon <:+: p.text :=
        block_safe state (formatCoord lat lon) hns hfnn hfne d
          (ci0 + country.length + 1 - 1) "HEADING_2" (by decide) (by omega) hsafe0
      have hlen2 : docLen d2 = docLen d + state.length + 1 :=
        docLen_block d (ci0 + country.length + 1 - 1) state _
      rw [applyReqs_coord d2 (ci0 + country.length + 1 + state.length + 1) url lat lon (by omega)]
      obtain ⟨hcount, hloc⟩ := coord_block_props lat lon url d2
        (ci0 + country.length + 1 + state.length + 1 - 1) (by omega) hsafe2
      exact ⟨archive_none_of_exists _ _ _ _ _ _ hloc, hcount⟩
    | none =>
      simp only [Option.some.injEq, Option.getD_none, List.nil_append] at h
      subst h
      rw [show ([DocRequest.insertText 1 (country ++ ['\n']),
          DocRequest.updateParagraphStyle 1 (country.length + 2) "HEADING_1"] ++
          [DocRequest.insertText (1 + country.length + 1) (state ++ ['\n']),
           DocRequest.updateParagraphStyle (1 + country.length + 1)
             (1 + country.length + 1 + state.length + 1) "HEADING_2"] ++
          [DocRequest.insertText (1 + country.length + 1 + state.length + 1)
             (formatCoord lat lon ++ ['\n']),
           DocRequest.updateTextStyle (1 + country.length + 1 + state.length + 1)
             (1 + country.length + 1 + state.length + 1
               + (pyStrip (formatCoord lat lon ++ ['\n'])).length) url,
           DocRequest.updateParagraphStyle (1 + country.length + 1 + state.length + 1)
             (1 + country.length + 1 + state.length + 1
               + (formatCoord lat lon ++ ['\n']).length) "NORMAL_TEXT"])
          = ([DocRequest.insertText 1 (country ++ ['\n']),
             DocRequest.updateParagraphStyle 1 (country.length + 2) "HEADING_1"] ++
            [DocRequest.insertText (1 + country.length + 1) (state ++ ['\n']),
             DocRequest.updateParagraphStyle (1 + country.length + 1)
               (1 + country.length + 1 + state.length + 1) "HEADING_2"]) ++
            [DocRequest.insertText (1 + country.length + 1 + state.length + 1)
               (formatCoord lat lon ++ ['\n']),
             DocRequest.updateTextStyle (1 + country.length + 1 + state.length + 1)
               (1 + country.length + 1 + state.length + 1
                 + (pyStrip (formatCoord lat lon ++ ['\n'])).length) url,
             DocRequest.updateParagraphStyle (1 + country.length + 1 + state.length + 1)
               (1 + country.length + 1 + state.length + 1
                 + (formatCoord lat lon ++ ['\n']).length) "NORMAL_TEXT"]
          from rfl]
      rw [applyReqs_append, applyReqs_append,
        applyReqs_block d 1 (country.length + 2) country "HEADING_1" (by omega)]
      set d1 := styleRange (insertTextAt d (1 - 1) (country ++ ['\n'])) 0 (1 - 1)
        ((1 - 1) + (country.length + 1)) "HEADING_1" with hd1
      have hsafe1 : ∀ p ∈ d1, p.style = "NORMAL_TEXT" → ¬ formatCoord lat lon <:+: p.text :=
        block_safe country (formatCoord lat lon) hnc hfnn hfne d (1 - 1) "HEADING_1"
          (by decide) (by omega) hsafe0
      have hlen1 : docLen d1 = docLen d + country.length + 1 := docLen_block d (1 - 1) country _
      rw [applyReqs_block d1 (1 + country.length + 1)
        (1 + country.length + 1 + state.length + 1) state "HEADING_2" (by omega)]
      set d2 := styleRange (insertTextAt d1 (1 + country.length + 1 - 1) (state ++ ['\n'])) 0
        (1 + country.length + 1 - 1) ((1 + country.length + 1 - 1) + (state.length + 1))
        "HEADING_2" with hd2
      have hsafe2 : ∀ p ∈ d2, p.style = "NORMAL_TEXT" → ¬ formatCoord lat lon <:+: p.text :=
        block_safe state (formatCoord lat lon) hns hfnn hfne d1
          (1 + country.length + 1 - 1) "HEADING_2" (by decide) (by omega) hsafe1
      have hlen2 : docLen d2 = docLen d1 + state.length + 1 :=
        docLen_block d1 (1 + country.length + 1 - 1) state _
      rw [applyReqs_coord d2 (1 + country.length + 1 + state.length + 1) url lat lon (by omega)]
      obtain ⟨hcount, hloc⟩ := coord_block_props lat lon url d2
        (1 + country.length + 1 + state.length + 1 - 1) (by omega) hsafe2
      exact ⟨archive_none_of_exists _ _ _ _ _ _ hloc, hcount⟩

/-- C1, witness: a first archive on a one-paragraph document, then the
idempotence conclusions at the updated document. -/
theorem claim_C1_witness :
    archive_location
        (applyReqs [⟨"Hello\n".data, "NORMAL_TEXT"⟩]
          ((archive_location [⟨"Hello\n".data, "NORMAL_TEXT"⟩] "u1".data
            ⟨false, 15, 1⟩ ⟨false, 25, 1⟩ "Testland".data "Weststate".data).getD []))
        "u1".data ⟨false, 15, 1⟩ ⟨false, 25, 1⟩ "Testland".data "Weststate".data = none ∧
    countNormalCoord
        (applyReqs [⟨"Hello\n".data, "NORMAL_TEXT"⟩]
          ((archive_location [⟨"Hello\n".data, "NORMAL_TEXT"⟩] "u1".data
            ⟨false, 15, 1⟩ ⟨false, 25, 1⟩ "Testland".data "Weststate".data).getD []))
        ⟨false, 15, 1⟩ ⟨false, 25, 1⟩ = 1 :=
  claim_C1 [⟨"Hello\n".data, "NORMAL_TEXT"⟩] "u1".data ⟨false, 15, 1⟩ ⟨false, 25, 1⟩
    "Testland".data "Weststate".data _ (by decide) (by decide) (by decide)

lemma wfText_parts (cs : List Char) (h : wfText cs = true) :
    cs.dropLast ++ ['\n'] = cs ∧ '\n' ∉ cs.dropLast := by
  unfold wfText at h
  have h' : cs ≠ [] ∧ cs.getLast? = some '\n' ∧ '\n' ∉ cs.dropLast := of_decide_eq_true h
  obtain ⟨h1, h2, h3⟩ := h'
  refine ⟨?_, h3⟩
  have hsplit := List.dropLast_concat_getLast h1
  have h2' : cs.getLast? = some (cs.getLast h1) := by
    conv_lhs => rw [← hsplit]
    exact List.getLast?_concat _
  rw [h2'] at h2
  have hgl : cs.getLast h1 = '\n' := Option.some.inj h2
  rw [← hgl]
  exact hsplit

lemma wfText_label (s : List Char) (h : '\n' ∉ s) : wfText (s ++ ['\n']) = true := by
  unfold wfText
  apply decide_eq_true
  refine ⟨by simp, List.getLast?_concat s, ?_⟩
  rw [List.dropLast_concat]
  exact h

lemma splitLines_wf (cs : List Char) (h : wfText cs = true) : splitLines cs = [cs] := by
  obtain ⟨hsplit, hnd⟩ := wfText_parts cs h
  conv_lhs => rw [← hsplit]
  rw [splitLines_append_newline _ _ hnd, hsplit]
  rfl

lemma pyStrip_head_last (s : List Char) (h : pyStrip s = s) :
    (∀ c, s.head? = some c → isPyWs c = false) ∧
    (∀ c, s.getLast? = some c → isPyWs c = false) := by
  unfold pyStrip at h
  have hlen := congrArg List.length h
  rw [List.length_reverse] at hlen
  have hd1len : (s.dropWhile isPyWs).length = s.length := by
    have h1 := dropWhile_length_le isPyWs (s.dropWhile isPyWs).reverse
    rw [List.length_reverse] at h1
    have h2 := dropWhile_length_le isPyWs s
    omega
  have hd1 : s.dropWhile isPyWs = s :=
    (List.dropWhile_suffix isPyWs).eq_of_length hd1len
  rw [hd1] at hlen
  have hd2 : s.reverse.dropWhile isPyWs = s.reverse := by
    apply (List.dropWhile_suffix isPyWs).eq_of_length
    rw [List.length_reverse]
    exact hlen
  constructor
  · intro c hc
    cases hs : s with
    | nil => rw [hs] at hc; exact absurd hc (by simp)
    | cons a t =>
      rw [hs] at hc hd1
      rw [List.head?_cons] at hc
      have hca : a = c := Option.some.inj hc
      subst hca
      cases hws : isPyWs a with
      | false => rfl
      | true =>
        rw [List.dropWhile_cons, if_pos hws] at hd1
        have hl1 := congrArg List.length hd1
        have hl2 := dropWhile_length_le isPyWs t
        simp only [List.length_cons] at hl1
        omega
  · intro c hc
    have hc' : s.reverse.head? = some c := by
      rw [List.head?_reverse]
      exact hc
    cases hsrev : s.reverse with
    | nil => rw [hsrev] at hc'; exact absurd hc' (by simp)
    | cons a t =>
      rw [hsrev] at hc' hd2
      rw [List.head?_cons] at hc'
      have hca : a = c := Option.some.inj hc'
      subst hca
      cases hws : isPyWs a with
      | false => rfl
      | true =>
        rw [List.dropWhile_cons, if_pos hws] at hd2
        have hl1 := congrArg List.length hd2
        have hl2 := dropWhile_length_le isPyWs t
        simp only [List.length_cons] at hl1
        omega

lemma pyStrip_label (s : List Char) (h : pyStrip s = s) : pyStrip (s ++ ['\n']) = s := by
  obtain ⟨hh, hl⟩ := pyStrip_head_last s h
  exact pyStrip_append_newline s hh hl

lemma insertTextAt_cons (p : Para) (ps : List Para) (i : Nat) (t : List Char) :
    insertTextAt (p :: ps) i t =
      if i < p.text.length ∨ ps = [] then
        splitParas (p.text.take i ++ t ++ p.text.drop i) p.style ++ ps
      else p :: insertTextAt ps (i - p.text.length) t := rfl

lemma insertTextAt_skip : ∀ (A B : List Para) (i : Nat) (t : List Char),
    docLen A ≤ i → B ≠ [] →
    insertTextAt (A ++ B) i t = A ++ insertTextAt B (i - docLen A) t := by
  intro A
  induction A with
  | nil =>
    intro B i t _ _
    rw [List.nil_append, docLen_nil, Nat.sub_zero, List.nil_append]
  | cons p A' ih =>
    intro B i t hle hB
    rw [docLen_cons] at hle
    rw [List.cons_append, insertTextAt_cons]
    rw [if_neg (by
      push_neg
      exact ⟨by omega, fun hc => hB (List.append_eq_nil.mp hc).2⟩)]
    rw [ih B (i - p.text.length) t (by omega) hB, docLen_cons, List.cons_append]
    have harith : i - p.text.length - docLen A' = i - (p.text.length + docLen A') := by omega
    rw [harith]

lemma insertTextAt_head (q : Para) (rest : List Para) (fmt : List Char)
    (hq : wfText q.text = true) (hn : '\n' ∉ fmt) :
    insertTextAt (q :: rest) 0 (fmt ++ ['\n']) = ⟨fmt ++ ['\n'], q.style⟩ :: q :: rest := by
  obtain ⟨hsplit, hnd⟩ := wfText_parts q.text hq
  have hne : q.text ≠ [] := by
    intro h0
    rw [h0] at hsplit
    exact absurd hsplit (by simp)
  have hlen : 0 < q.text.length := List.length_pos.mpr hne
  rw [insertTextAt_cons, if_pos (Or.inl hlen), List.take_zero, List.drop_zero, List.nil_append]
  unfold splitParas
  rw [List.append_assoc, show ['\n'] ++ q.text = '\n' :: q.text from rfl,
    splitLines_append_newline fmt q.text hn, splitLines_wf q.text hq]
  rfl

lemma styleRange_exact_one (A : List Para) (p : Para) (B : List Para) (st : String)
    (s e : Nat) (hs : s = docLen A) (he : e = s + p.text.length) (hp : 0 < p.text.length) :
    styleRange (A ++ p :: B) 0 s e st = A ++ ⟨p.text, st⟩ :: B := by
  rw [styleRange_append, styleRange_untouched A 0 s e st (by omega), styleRange_cons,
    if_pos ⟨by omega, by omega⟩,
    styleRange_untouched_after B (0 + docLen A + p.text.length) s e st (by omega)]

lemma coord_block_exact (A : List Para) (q : Para) (B : List Para) (fmt : List Char)
    (hq : wfText q.text = true)
    (hB : ∀ p, B.head? = some p → wfText p.text = true)
    (hn : '\n' ∉ fmt) (s e : Nat)
    (hs : s = docLen A + q.text.length) (he : e = s + (fmt.length + 1)) :
    styleRange (insertTextAt (A ++ q :: B) s (fmt ++ ['\n'])) 0 s e "NORMAL_TEXT"
      = A ++ q :: ⟨fmt ++ ['\n'], "NORMAL_TEXT"⟩ :: B := by
  have hlen1 : (fmt ++ ['\n']).length = fmt.length + 1 := by
    rw [List.length_append, List.length_singleton]
  cases B with
  | nil =>
    obtain ⟨hsplit, hnd⟩ := wfText_parts q.text hq
    have hins : insertTextAt (A ++ q :: []) s (fmt ++ ['\n'])
        = (A ++ [q]) ++ ⟨fmt ++ ['\n'], q.style⟩ :: [] := by
      rw [insertTextAt_skip A (q :: []) s (fmt ++ ['\n']) (by omega) (by simp)]
      have h0 : s - docLen A = q.text.length := by omega
      rw [h0, insertTextAt_cons, if_pos (Or.inr rfl), List.take_length, List.drop_length,
        List.append_nil, List.append_nil]
      unfold splitParas
      conv_lhs => rw [← hsplit]
      rw [List.append_assoc, show ['\n'] ++ (fmt ++ ['\n']) = '\n' :: (fmt ++ ['\n']) from rfl,
        splitLines_append_newline _ _ hnd, splitLines_append_newline fmt [] hn,
        show splitLines ([] : List Char) = [] from rfl, hsplit]
      simp
    rw [hins, styleRange_exact_one (A ++ [q]) ⟨fmt ++ ['\n'], q.style⟩ [] "NORMAL_TEXT" s e
      (by rw [docLen_append, docLen_cons, docLen_nil]; omega)
      (by rw [show (Para.mk (fmt ++ ['\n']) q.style).text = fmt ++ ['\n'] from rfl, hlen1]; omega)
      (by rw [show (Para.mk (fmt ++ ['\n']) q.style).text = fmt ++ ['\n'] from rfl, hlen1]; omega)]
    simp
  | cons b B' =>
    have hwb : wfText b.text = true := hB b rfl
    have hins : insertTextAt (A ++ q :: b :: B') s (fmt ++ ['\n'])
        = (A ++ [q]) ++ ⟨fmt ++ ['\n'], b.style⟩ :: b :: B' := by
      rw [insertTextAt_skip A (q :: b :: B') s (fmt ++ ['\n']) (by omega) (by simp)]
      have h0 : s - docLen A = q.text.length := by omega
      rw [h0, insertTextAt_cons, if_neg (by push_neg; exact ⟨by omega, by simp⟩),
        Nat.sub_self, insertTextAt_head b B' fmt hwb hn]
      simp
    rw [hins, styleRange_exact_one (A ++ [q]) ⟨fmt ++ ['\n'], b.style⟩ (b :: B') "NORMAL_TEXT" s e
      (by rw [docLen_append, docLen_cons, docLen_nil]; omega)
      (by rw [show (Para.mk (fmt ++ ['\n']) b.style).text = fmt ++ ['\n'] from rfl, hlen1]; omega)
      (by rw [show (Para.mk (fmt ++ ['\n']) b.style).text = fmt ++ ['\n'] from rfl, hlen1]; omega)]
    simp

lemma countHeading_append (A B : List Para) (st : String) (label : List Char) :
    countHeading (A ++ B) st label = countHeading A st label + countHeading B st label := by
  unfold countHeading
  exact List.countP_append _ _ _

lemma countHeading_cons_ne (p : Para) (ps : List Para) (st : String) (label : List Char)
    (h : p.style ≠ st) :
    countHeading (p :: ps) st label = countHeading ps st label := by
  unfold countHeading
  rw [List.countP_cons]
  have hb : (p.style == st) = false := by
    cases hx : p.style == st with
    | false => rfl
    | true => exact absurd (eq_of_beq hx) h
  rw [hb, Bool.false_and]
  simp

lemma countHeading_cons_hit (p : Para) (ps : List Para) (st : String) (label : List Char)
    (h1 : p.style = st) (h2 : pyStrip p.text = label) :
    countHeading (p :: ps) st label = countHeading ps st label + 1 := by
  unfold countHeading
  rw [List.countP_cons]
  have hb : (p.style == st && pyStrip p.text == label) = true := by
    rw [Bool.and_eq_true, beq_iff_eq, beq_iff_eq]
    exact ⟨h1, h2⟩
  rw [hb]
  simp

lemma countHeading_zero (A : List Para) (st : String) (label : List Char)
    (h : ∀ q ∈ A, pyStrip q.text ≠ label) : countHeading A st label = 0 := by
  unfold countHeading
  rw [List.countP_eq_zero]
  intro a ha hpa
  rw [Bool.and_eq_true, beq_iff_eq, beq_iff_eq] at hpa
  exact h a ha hpa.2

/-- C2.  (Corrected.)  On a document that already carries the state heading
paragraph (and exactly one country heading), archiving two different
non-duplicate coordinates under the same country and state keeps exactly one
country heading and exactly one state heading, but the two coordinate lines
appear in REVERSE arrival order: each new line is inserted immediately after
the state heading, so the second-archived coordinate sits physically before
the first-archived one. -/
theorem claim_C2 (D1 D2 : List Para) (url1 url2 : List Char)
    (lat1 lon1 lat2 lon2 : PyFloat) (country state : List Char) (r1 r2 : List DocRequest)
    (hns : '\n' ∉ state)
    (hstrip : pyStrip state = state)
    (hsc : state ≠ country)
    (hu1 : ∀ q ∈ D1, pyStrip q.text ≠ state)
    (hu2 : ∀ q ∈ D2, pyStrip q.text ≠ state)
    (hwfD2 : ∀ p ∈ D2, wfText p.text = true)
    (hch : countHeading (D1 ++ ⟨state ++ ['\n'], "HEADING_2"⟩ :: D2) "HEADING_1" country = 1)
    (h1 : archive_location (D1 ++ ⟨state ++ ['\n'], "HEADING_2"⟩ :: D2) url1 lat1 lon1
      country state = some r1)
    (h2 : archive_location
      (applyReqs (D1 ++ ⟨state ++ ['\n'], "HEADING_2"⟩ :: D2) r1) url2 lat2 lon2
      country state = some r2) :
    applyReqs (applyReqs (D1 ++ ⟨state ++ ['\n'], "HEADING_2"⟩ :: D2) r1) r2
      = D1 ++ ⟨state ++ ['\n'], "HEADING_2"⟩
          :: ⟨formatCoord lat2 lon2 ++ ['\n'], "NORMAL_TEXT"⟩
          :: ⟨formatCoord lat1 lon1 ++ ['\n'], "NORMAL_TEXT"⟩ :: D2 ∧
    countHeading (applyReqs (applyReqs (D1 ++ ⟨state ++ ['\n'], "HEADING_2"⟩ :: D2) r1) r2)
      "HEADING_1" country = 1 ∧
    countHeading (applyReqs (applyReqs (D1 ++ ⟨state ++ ['\n'], "HEADING_2"⟩ :: D2) r1) r2)
      "HEADING_2" state = 1 := by
  have hspstrip : pyStrip (state ++ ['\n']) = state := pyStrip_label state hstrip
  have hspwf : wfText (state ++ ['\n']) = true := wfText_label state hns
  unfold archive_location at h1
  split at h1
  · exact absurd h1 (by simp)
  rename_i hdup1
  have hdup1' : location_exists_in_doc (D1 ++ ⟨state ++ ['\n'], "HEADING_2"⟩ :: D2)
      lat1 lon1 url1 = false := Bool.eq_false_iff.mpr hdup1
  have hfree1 := location_free _ lat1 lon1 url1 hdup1'
  have hne1 : formatCoord lat1 lon1 ≠ state := by
    intro he1
    have hmem : (⟨state ++ ['\n'], "HEADING_2"⟩ : Para) ∈
        D1 ++ ⟨state ++ ['\n'], "HEADING_2"⟩ :: D2 :=
      List.mem_append_right _ (List.mem_cons_self _ _)
    exact (hfree1 _ hmem).1 (by rw [he1]; exact ⟨[], ['\n'], by simp⟩)
  have hsnd1 : (findHeaders (D1 ++ ⟨state ++ ['\n'], "HEADING_2"⟩ :: D2) 1 country state).2
      = some (1 + docLen D1) :=
    findHeaders_snd_unique D1 _ D2 1 country state hu1 hu2 hspstrip
      (by rw [show (Para.mk (state ++ ['\n']) "HEADING_2").text = state ++ ['\n'] from rfl,
        hspstrip]; exact hsc)
  have hcex : ∃ p ∈ D1 ++ ⟨state ++ ['\n'], "HEADING_2"⟩ :: D2, pyStrip p.text = country := by
    have hpos : 0 < countHeading (D1 ++ ⟨state ++ ['\n'], "HEADING_2"⟩ :: D2)
        "HEADING_1" country := by omega
    unfold countHeading at hpos
    obtain ⟨p, hp, hpred⟩ := List.countP_pos.mp hpos
    rw [Bool.and_eq_true, beq_iff_eq, beq_iff_eq] at hpred
    exact ⟨p, hp, hpred.2⟩
  obtain ⟨c1v, hc1⟩ := Option.isSome_iff_exists.mp
    (findHeaders_fst_isSome _ 1 country state hcex)
  have hf1 : findHeaders (D1 ++ ⟨state ++ ['\n'], "HEADING_2"⟩ :: D2) 1 country state
      = (some c1v, some (1 + docLen D1)) := by
    rw [← hc1, ← hsnd1]
  rw [hf1] at h1
  simp only [Option.some.injEq, Option.getD_some, List.nil_append] at h1
  subst h1
  have happ1 : applyReqs (D1 ++ ⟨state ++ ['\n'], "HEADING_2"⟩ :: D2)
      [DocRequest.insertText (1 + docLen D1 + state.length + 1)
         (formatCoord lat1 lon1 ++ ['\n']),
       DocRequest.updateTextStyle (1 + docLen D1 + state.length + 1)
         (1 + docLen D1 + state.length + 1
           + (pyStrip (formatCoord lat1 lon1 ++ ['\n'])).length) url1,
       DocRequest.updateParagraphStyle (1 + docLen D1 + state.length + 1)
         (1 + docLen D1 + state.length + 1 + (formatCoord lat1 lon1 ++ ['\n']).length)
         "NORMAL_TEXT"]
      = D1 ++ ⟨state ++ ['\n'], "HEADING_2"⟩
          :: ⟨formatCoord lat1 lon1 ++ ['\n'], "NORMAL_TEXT"⟩ :: D2 := by
    rw [applyReqs_coord _ (1 + docLen D1 + state.length + 1) url1 lat1 lon1 (by omega)]
    exact coord_block_exact D1 ⟨state ++ ['\n'], "HEADING_2"⟩ D2 (formatCoord lat1 lon1)
      hspwf
      (fun p hp => by
        cases D2 with
        | nil => exact absurd hp (by simp)
        | cons x xs =>
          rw [List.head?_cons, Option.some.injEq] at hp
          subst hp
          exact hwfD2 x (List.mem_cons_self x xs))
      (formatCoord_no_newline lat1 lon1) _ _
      (by rw [show (Para.mk (state ++ ['\n']) "HEADING_2").text = state ++ ['\n'] from rfl,
        List.length_append, List.length_singleton]; omega)
      rfl
  rw [happ1] at h2 ⊢
  unfold archive_location at h2
  split at h2
  · exact absurd h2 (by simp)
  rename_i hdup2
  have hu2' : ∀ q ∈ (⟨formatCoord lat1 lon1 ++ ['\n'], "NORMAL_TEXT"⟩ : Para) :: D2,
      pyStrip q.text ≠ state := by
    intro q hq
    rcases List.mem_cons.mp hq with hq1 | hq2
    · subst hq1
      rw [show (Para.mk (formatCoord lat1 lon1 ++ ['\n']) "NORMAL_TEXT").text
          = formatCoord lat1 lon1 ++ ['\n'] from rfl, pyStrip_coord_line]
      exact hne1
    · exact hu2 q hq2
  have hsnd2 : (findHeaders (D1 ++ ⟨state ++ ['\n'], "HEADING_2"⟩
      :: ⟨formatCoord lat1 lon1 ++ ['\n'], "NORMAL_TEXT"⟩ :: D2) 1 country state).2
      = some (1 + docLen D1) :=
    findHeaders_snd_unique D1 _ _ 1 country state hu1 hu2' hspstrip
      (by rw [show (Para.mk (state ++ ['\n']) "HEADING_2").text = state ++ ['\n'] from rfl,
        hspstrip]; exact hsc)
  have hcex2 : ∃ p ∈ D1 ++ ⟨state ++ ['\n'], "HEADING_2"⟩
      :: ⟨formatCoord lat1 lon1 ++ ['\n'], "NORMAL_TEXT"⟩ :: D2, pyStrip p.text = country := by
    obtain ⟨p, hp, hpc⟩ := hcex
    refine ⟨p, ?_, hpc⟩
    rcases List.mem_append.mp hp with hl | hr
    · exact List.mem_append_left _ hl
    · rcases List.mem_cons.mp hr with he | hm
      · exact List.mem_append_right _ (by rw [he]; exact List.mem_cons_self _ _)
      · exact List.mem_append_right _
          (List.mem_cons_of_mem _ (List.mem_cons_of_mem _ hm))
  obtain ⟨c2v, hc2⟩ := Option.isSome_iff_exists.mp
    (findHeaders_fst_isSome _ 1 country state hcex2)
  have hf2 : findHeaders (D1 ++ ⟨state ++ ['\n'], "HEADING_2"⟩
      :: ⟨formatCoord lat1 lon1 ++ ['\n'], "NORMAL_TEXT"⟩ :: D2) 1 country state
      = (some c2v, some (1 + docLen D1)) := by
    rw [← hc2, ← hsnd2]
  rw [hf2] at h2
  simp only [Option.some.injEq, Option.getD_some, List.nil_append] at h2
  subst h2
  have happ2 : applyReqs (D1 ++ ⟨state ++ ['\n'], "HEADING_2"⟩
      :: ⟨formatCoord lat1 lon1 ++ ['\n'], "NORMAL_TEXT"⟩ :: D2)
      [DocRequest.insertText (1 + docLen D1 + state.length + 1)
         (formatCoord lat2 lon2 ++ ['\n']),
       DocRequest.updateTextStyle (1 + docLen D1 + state.length + 1)
         (1 + docLen D1 + state.length + 1
           + (pyStrip (formatCoord lat2 lon2 ++ ['\n'])).length) url2,
       DocRequest.updateParagraphStyle (1 + docLen D1 + state.length + 1)
         (1 + docLen D1 + state.length + 1 + (formatCoord lat2 lon2 ++ ['\n']).length)
         "NORMAL_TEXT"]
      = D1 ++ ⟨state ++ ['\n'], "HEADING_2"⟩
          :: ⟨formatCoord lat2 lon2 ++ ['\n'], "NORMAL_TEXT"⟩
          :: ⟨formatCoord lat1 lon1 ++ ['\n'], "NORMAL_TEXT"⟩ :: D2 := by
    rw [applyReqs_coord _ (1 + docLen D1 + state.length + 1) url2 lat2 lon2 (by omega)]
    exact coord_block_exact D1 ⟨state ++ ['\n'], "HEADING_2"⟩
      (⟨formatCoord lat1 lon1 ++ ['\n'], "NORMAL_TEXT"⟩ :: D2) (formatCoord lat2 lon2)
      hspwf
      (fun p hp => by
        rw [List.head?_cons, Option.some.injEq] at hp
        subst hp
        exact wfText_label _ (formatCoord_no_newline lat1 lon1))
      (formatCoord_no_newline lat2 lon2) _ _
      (by rw [show (Para.mk (state ++ ['\n']) "HEADING_2").text = state ++ ['\n'] from rfl,
        List.length_append, List.length_singleton]; omega)
      rfl
  rw [happ2]
  refine ⟨rfl, ?_, ?_⟩
  · rw [countHeading_append] at hch ⊢
    rw [countHeading_cons_ne _ _ _ _
      (show ("HEADING_2" : String) ≠ "HEADING_1" from by decide)] at hch
    rw [countHeading_cons_ne _ _ _ _
        (show ("HEADING_2" : String) ≠ "HEADING_1" from by decide),
      countHeading_cons_ne _ _ _ _
        (show ("NORMAL_TEXT" : String) ≠ "HEADING_1" from by decide),
      countHeading_cons_ne _ _ _ _
        (show ("NORMAL_TEXT" : String) ≠ "HEADING_1" from by decide)]
    exact hch
  · rw [countHeading_append, countHeading_zero D1 _ _ hu1,
      countHeading_cons_hit _ _ _ _
        (show ("HEADING_2" : String) = "HEADING_2" from rfl) hspstrip,
      countHeading_cons_ne _ _ _ _
        (show ("NORMAL_TEXT" : String) ≠ "HEADING_2" from by decide),
      countHeading_cons_ne _ _ _ _
        (show ("NORMAL_TEXT" : String) ≠ "HEADING_2" from by decide),
      countHeading_zero D2 _ _ hu2]

/-- C2, counterexample to the claimed arrival order.  Starting from a document
that already has the "Testland" country heading and the "Weststate" state
heading, archiving (1.5, 2.5) and then (3.5, 4.5) yields a document where the
second-archived line "3.500000, 4.500000" sits physically BEFORE the
first-archived line "1.500000, 2.500000": insertion always happens directly
after the state heading, so lines accumulate most-recent-first. -/
theorem claim_C2_counterexample :
    (archive_location [⟨"Testland\n".data, "HEADING_1"⟩, ⟨"Weststate\n".data, "HEADING_2"⟩,
        ⟨"x\n".data, "NORMAL_TEXT"⟩] "u1".data ⟨false, 15, 1⟩ ⟨false, 25, 1⟩
        "Testland".data "Weststate".data).isSome = true ∧
    (archive_location
        (applyReqs [⟨"Testland\n".data, "HEADING_1"⟩, ⟨"Weststate\n".data, "HEADING_2"⟩,
            ⟨"x\n".data, "NORMAL_TEXT"⟩]
          ((archive_location [⟨"Testland\n".data, "HEADING_1"⟩,
              ⟨"Weststate\n".data, "HEADING_2"⟩, ⟨"x\n".data, "NORMAL_TEXT"⟩] "u1".data
              ⟨false, 15, 1⟩ ⟨false, 25, 1⟩ "Testland".data "Weststate".data).getD []))
        "u2".data ⟨false, 35, 1⟩ ⟨false, 45, 1⟩
        "Testland".data "Weststate".data).isSome = true ∧
    applyReqs
        (applyReqs [⟨"Testland\n".data, "HEADING_1"⟩, ⟨"Weststate\n".data, "HEADING_2"⟩,
            ⟨"x\n".data, "NORMAL_TEXT"⟩]
          ((archive_location [⟨"Testland\n".data, "HEADING_1"⟩,
              ⟨"Weststate\n".data, "HEADING_2"⟩, ⟨"x\n".data, "NORMAL_TEXT"⟩] "u1".data
              ⟨false, 15, 1⟩ ⟨false, 25, 1⟩ "Testland".data "Weststate".data).getD []))
        ((archive_location
            (applyReqs [⟨"Testland\n".data, "HEADING_1"⟩, ⟨"Weststate\n".data, "HEADING_2"⟩,
                ⟨"x\n".data, "NORMAL_TEXT"⟩]
              ((archive_location [⟨"Testland\n".data, "HEADING_1"⟩,
                  ⟨"Weststate\n".data, "HEADING_2"⟩, ⟨"x\n".data, "NORMAL_TEXT"⟩] "u1".data
                  ⟨false, 15, 1⟩ ⟨false, 25, 1⟩ "Testland".data "Weststate".data).getD []))
            "u2".data ⟨false, 35, 1⟩ ⟨false, 45, 1⟩
            "Testland".data "Weststate".data).getD [])
      = [⟨"Testland\n".data, "HEADING_1"⟩, ⟨"Weststate\n".data, "HEADING_2"⟩,
         ⟨"3.500000, 4.500000\n".data, "NORMAL_TEXT"⟩,
         ⟨"1.500000, 2.500000\n".data, "NORMAL_TEXT"⟩,
         ⟨"x\n".data, "NORMAL_TEXT"⟩] := by
  decide

/-- C2, witness for the corrected statement at a concrete document. -/
theorem claim_C2_witness :
    applyReqs
        (applyReqs ([⟨"Testland\n".data, "HEADING_1"⟩]
            ++ ⟨"Weststate".data ++ ['\n'], "HEADING_2"⟩ :: [⟨"x\n".data, "NORMAL_TEXT"⟩])
          ((archive_location ([⟨"Testland\n".data, "HEADING_1"⟩]
              ++ ⟨"Weststate".data ++ ['\n'], "HEADING_2"⟩ :: [⟨"x\n".data, "NORMAL_TEXT"⟩])
              "u1".data ⟨false, 15, 1⟩ ⟨false, 25, 1⟩
              "Testland".data "Weststate".data).getD []))
        ((archive_location
            (applyReqs ([⟨"Testland\n".data, "HEADING_1"⟩]
                ++ ⟨"Weststate".data ++ ['\n'], "HEADING_2"⟩ :: [⟨"x\n".data, "NORMAL_TEXT"⟩])
              ((archive_location ([⟨"Testland\n".data, "HEADING_1"⟩]
                  ++ ⟨"Weststate".data ++ ['\n'], "HEADING_2"⟩
                  :: [⟨"x\n".data, "NORMAL_TEXT"⟩]) "u1".data ⟨false, 15, 1⟩ ⟨false, 25, 1⟩
                  "Testland".data "Weststate".data).getD []))
            "u2".data ⟨false, 35, 1⟩ ⟨false, 45, 1⟩
            "Testland".data "Weststate".data).getD [])
      = [⟨"Testland\n".data, "HEADING_1"⟩] ++ ⟨"Weststate".data ++ ['\n'], "HEADING_2"⟩
          :: ⟨formatCoord ⟨false, 35, 1⟩ ⟨false, 45, 1⟩ ++ ['\n'], "NORMAL_TEXT"⟩
          :: ⟨formatCoord ⟨false, 15, 1⟩ ⟨false, 25, 1⟩ ++ ['\n'], "NORMAL_TEXT"⟩
          :: [⟨"x\n".data, "NORMAL_TEXT"⟩] ∧
    countHeading
        (applyReqs
          (applyReqs ([⟨"Testland\n".data, "HEADING_1"⟩]
              ++ ⟨"Weststate".data ++ ['\n'], "HEADING_2"⟩ :: [⟨"x\n".data, "NORMAL_TEXT"⟩])
            ((archive_location ([⟨"Testland\n".data, "HEADING_1"⟩]
                ++ ⟨"Weststate".data ++ ['\n'], "HEADING_2"⟩ :: [⟨"x\n".data, "NORMAL_TEXT"⟩])
                "u1".data ⟨false, 15, 1⟩ ⟨false, 25, 1⟩
                "Testland".data "Weststate".data).getD []))
          ((archive_location
              (applyReqs ([⟨"Testland\n".data, "HEADING_1"⟩]
                  ++ ⟨"Weststate".data ++ ['\n'], "HEADING_2"⟩ :: [⟨"x\n".data, "NORMAL_TEXT"⟩])
                ((archive_location ([⟨"Testland\n".data, "HEADING_1"⟩]
                    ++ ⟨"Weststate".data ++ ['\n'], "HEADING_2"⟩
                    :: [⟨"x\n".data, "NORMAL_TEXT"⟩]) "u1".data ⟨false, 15, 1⟩ ⟨false, 25, 1⟩
                    "Testland".data "Weststate".data).getD []))
              "u2".data ⟨false, 35, 1⟩ ⟨false, 45, 1⟩
              "Testland".data "Weststate".data).getD []))
        "HEADING_1" "Testland".data = 1 ∧
    countHeading
        (applyReqs
          (applyReqs ([⟨"Testland\n".data, "HEADING_1"⟩]
              ++ ⟨"Weststate".data ++ ['\n'], "HEADING_2"⟩ :: [⟨"x\n".data, "NORMAL_TEXT"⟩])
            ((archive_location ([⟨"Testland\n".data, "HEADING_1"⟩]
                ++ ⟨"Weststate".data ++ ['\n'], "HEADING_2"⟩ :: [⟨"x\n".data, "NORMAL_TEXT"⟩])
                "u1".data ⟨false, 15, 1⟩ ⟨false, 25, 1⟩
                "Testland".data "Weststate".data).getD []))
          ((archive_location
              (applyReqs ([⟨"Testland\n".data, "HEADING_1"⟩]
                  ++ ⟨"Weststate".data ++ ['\n'], "HEADING_2"⟩ :: [⟨"x\n".data, "NORMAL_TEXT"⟩])
                ((archive_location ([⟨"Testland\n".data, "HEADING_1"⟩]
                    ++ ⟨"Weststate".data ++ ['\n'], "HEADING_2"⟩
                    :: [⟨"x\n".data, "NORMAL_TEXT"⟩]) "u1".data ⟨false, 15, 1⟩ ⟨false, 25, 1⟩
                    "Testland".data "Weststate".data).getD []))
              "u2".data ⟨false, 35, 1⟩ ⟨false, 45, 1⟩
              "Testland".data "Weststate".data).getD []))
        "HEADING_2" "Weststate".data = 1 :=
  claim_C2 [⟨"Testland\n".data, "HEADING_1"⟩] [⟨"x\n".data, "NORMAL_TEXT"⟩]
    "u1".data "u2".data ⟨false, 15, 1⟩ ⟨false, 25, 1⟩ ⟨false, 35, 1⟩ ⟨false, 45, 1⟩
    "Testland".data "Weststate".data _ _
    (by decide) (by decide) (by decide) (by decide) (by decide) (by decide) (by decide)
    (by decide) (by decide)

end SVA
